import Mathlib

/-!
Verification development for the PyRT-CETSA 384-well plate analysis core.

The Python source (`pyrt_cetsa.py`, `test_nparc.py`) is shallowly embedded:
cells of a spreadsheet are `Option ℚ` (`none` models a value that
`pd.to_numeric(..., errors="coerce")` turns into NaN, or a NaN float),
pandas frames become association lists, and Python exceptions become
`Except` errors.  Floating point arithmetic is idealised as exact rational
arithmetic; the claims settled here concern control flow, definedness
(NaN-ness) and index/key structure, none of which depend on rounding of
individual arithmetic operations.  SciPy's `curve_fit` based `_fit_4pl`
RSS and `mannwhitneyu` are external library calls and are abstracted as
oracle parameters; everything the repository's own code does around them
is embedded faithfully.
-/

set_option maxRecDepth 100000

namespace PyRTCETSA

/-! ### Well identity (`all_well_ids_384`, `well_id_from_rowcol`, `normalize_well_id`) -/

/-- `string.ascii_uppercase[:16]`, i.e. the letters A..P. -/
def lettersAP : List Char :=
  ['A', 'B', 'C', 'D', 'E', 'F', 'G', 'H', 'I', 'J', 'K', 'L', 'M', 'N', 'O', 'P']

/-- `string.ascii_uppercase`, all 26 uppercase letters. -/
def asciiUppercase : List Char :=
  ['A', 'B', 'C', 'D', 'E', 'F', 'G', 'H', 'I', 'J', 'K', 'L', 'M',
   'N', 'O', 'P', 'Q', 'R', 'S', 'T', 'U', 'V', 'W', 'X', 'Y', 'Z']

/-- Python list indexing `l[i]`: negative indices count from the end,
indices out of `[-len, len)` raise `IndexError` (modelled as `none`). -/
def pyGet {α : Type} (l : List α) (i : ℤ) : Option α :=
  let j : ℤ := if 0 ≤ i then i else i + l.length
  if 0 ≤ j ∧ j < l.length then l.get? j.toNat else none

/-- Python `int(q)` on a float: truncation toward zero. -/
def pyInt (q : ℚ) : ℤ := if 0 ≤ q then ⌊q⌋ else ⌈q⌉

/-- `well_id_from_rowcol(row_no, col_no)`: the source computes
`f"{letters[int(row_no)-1]}{int(col_no)}"` with `letters = A..P`.
There is no range validation: the list index follows Python semantics
(negative wrap-around; `none` models the `IndexError` for indices outside
`[-16, 15]`), and the column number is used verbatim. -/
def well_id_from_rowcol (row_no col_no : ℚ) : Option String :=
  (pyGet lettersAP (pyInt row_no - 1)).map
    (fun ch => String.mk [ch] ++ toString (pyInt col_no))

/-- Python `str.strip()` (whitespace on both ends; ASCII fragment). -/
def pyStrip (s : String) : String :=
  String.mk (((s.data.dropWhile Char.isWhitespace).reverse.dropWhile Char.isWhitespace).reverse)

/-- Python `str.upper()` (ASCII fragment, which covers the characters the
well-id regex can match). -/
def pyUpper (s : String) : String := String.mk (s.data.map Char.toUpper)

/-- Matching of the column group of the regex
`^([A-P])0*([1-9]|1[0-9]|2[0-4])$`: after stripping leading zeros the
remaining characters must literally be the decimal form of some
n ∈ [1, 24]; returns that n (`int(m.group(2))`). -/
def parseColCore (cs : List Char) : Option ℕ :=
  (List.range' 1 24).find? (fun n => (toString n).data == cs)

/-- `normalize_well_id(x)`: the source strips and uppercases the input,
then matches `^([A-P])0*([1-9]|1[0-9]|2[0-4])$`; on a match it returns
the canonical form `f"{letter}{int(number)}"`, otherwise it returns the
stripped-and-uppercased string (not the original argument). -/
def normalize_well_id (x : String) : String :=
  match (pyUpper (pyStrip x)).data with
  | [] => pyUpper (pyStrip x)
  | c :: rest =>
    if c ∈ lettersAP then
      match parseColCore (rest.dropWhile (fun d => d == '0')) with
      | some n => String.mk [c] ++ toString n
      | none => pyUpper (pyStrip x)
    else pyUpper (pyStrip x)

/-- The regex match of line 47,
`re.match(r"^([A-P])0*([1-9]|1[0-9]|2[0-4])$", y)`: on a match it
captures the letter (`m.group(1)`) and the column number
`int(m.group(2))`; `none` models a failed match. -/
def wellIdMatch (y : String) : Option (Char × ℕ) :=
  match y.data with
  | [] => none
  | c :: rest =>
    if c ∈ lettersAP then
      match parseColCore (rest.dropWhile (fun d => d == '0')) with
      | some n => some (c, n)
      | none => none
    else none

/-- `all_well_ids_384()`: `[f"{r}{c}" for r in A..P for c in range(1, 25)]`. -/
def all_well_ids_384 : List String :=
  lettersAP.flatMap (fun r => (List.range' 1 24).map (fun c => String.mk [r] ++ toString c))

/-! ### Spreadsheet grids and the layout auto-detector (`load_plate_matrix_auto`)

A spreadsheet cell is `Option ℚ`: `none` models a cell whose value
`pd.to_numeric(..., errors="coerce")` maps to NaN (and NaN itself),
`some q` a numeric value.  A grid is the row-major list of rows of a
pandas `DataFrame` read with `header=None`. -/

abbrev Cell := Option ℚ

abbrev Grid := List (List Cell)

/-- `df.shape[1]` of a rectangular frame. -/
def ncolsOf (df : Grid) : ℕ := (df.headD []).length

/-- pandas frames are rectangular; theorems about grids assume this. -/
def isRect (df : Grid) : Prop := ∀ row ∈ df, row.length = ncolsOf df

/-- Whether a rational is integral; `.astype("Int64")` on a coerced float
series succeeds exactly when every defined value is integral. -/
def isIntQ (q : ℚ) : Bool := q.den == 1

/-- `_score_header_pair(row_hdr, col_hdr)`: returns -1 when the
`astype("Int64")` conversion raises (some defined cell is non-integral),
otherwise the count of positions whose row value lies in [1,16] and whose
column value lies in [1,24] (NA compares as invalid via `fillna(False)`). -/
def score_header_pair (rowHdr colHdr : List Cell) : ℤ :=
  if (rowHdr ++ colHdr).any (fun c => match c with | some q => !(isIntQ q) | none => false) then -1
  else ((rowHdr.zip colHdr).countP (fun rc => match rc.1, rc.2 with
    | some rv, some cv => decide (1 ≤ rv ∧ rv ≤ 16 ∧ 1 ≤ cv ∧ cv ≤ 24)
    | _, _ => false) : ℤ)

/-- `df.iloc[r, s:e]` (row slice); the scalar row bound check is handled
separately where the source would raise `IndexError`. -/
def sliceRow (df : Grid) (r s e : ℕ) : List Cell :=
  (((df.get? r).getD []).drop s).take (e - s)

/-- The candidate header-row pairs `[(0,1), (1,2), (2,3), (3,4)]`. -/
def row_pairs : List (ℕ × ℕ) := [(0, 1), (1, 2), (2, 3), (3, 4)]

/-- `min(search_max_start, max(1, ncols-384))` with the default
`search_max_start = 20`; Python subtraction can be negative, hence ℤ. -/
def searchBound (ncols : ℕ) : ℕ := (min 20 (max 1 ((ncols : ℤ) - 384))).toNat

/-- The start offsets the inner loop actually reaches:
`range(0, searchBound+1)`, cut short by the `end > ncols: break`. -/
def candidateStarts (ncols : ℕ) : List ℕ :=
  (List.range (searchBound ncols + 1)).takeWhile (fun s => decide (s + 384 ≤ ncols))

/-- All candidate windows `((r1, r2), start)` in iteration order:
outer loop over the row pairs, inner loop over the start offsets. -/
def searchedCandidates (ncols : ℕ) : List ((ℕ × ℕ) × ℕ) :=
  row_pairs.flatMap (fun p => (candidateStarts ncols).map (fun s => (p, s)))

/-- The tracked best window `(r1, r2, start, end, score)`. -/
structure BestW where
  r1 : ℕ
  r2 : ℕ
  start : ℕ
  stop : ℕ
  score : ℤ
deriving DecidableEq

/-- Score of one candidate window. -/
def scoreAt (df : Grid) (c : (ℕ × ℕ) × ℕ) : ℤ :=
  score_header_pair (sliceRow df c.1.1 c.2 (c.2 + 384)) (sliceRow df c.1.2 c.2 (c.2 + 384))

def mkBestW (c : (ℕ × ℕ) × ℕ) (sc : ℤ) : BestW := ⟨c.1.1, c.1.2, c.2, c.2 + 384, sc⟩

/-- `best[4] if best else -1`. -/
def bestScoreOf (b : Option BestW) : ℤ := (b.map BestW.score).getD (-1)

/-- One iteration of the tracking loop: replace the best window only on a
strictly larger score (`if score > ...`), so ties keep the first. -/
def stepPure (df : Grid) (best : Option BestW) (c : (ℕ × ℕ) × ℕ) : Option BestW :=
  if bestScoreOf best < scoreAt df c then some (mkBestW c (scoreAt df c)) else best

/-- The search loop ignoring the `df.iloc` row-bound check. -/
def bestWindowPure (df : Grid) : Option BestW :=
  (searchedCandidates (ncolsOf df)).foldl (stepPure df) none

/-- The structural errors of the plate loading paths.
`layoutNotDetected` is the `ValueError("Could not auto-detect ...")` with
the best score found (`none` = the Python `'NA'`); `indexError` is the
uncaught `IndexError` of `df.iloc[r, ...]` on a grid with too few rows;
`castError` is the `ValueError` of `.astype(int)` on NA header cells;
`letterIndexError` is the `IndexError` of `string.ascii_uppercase[...]`;
`tooFewColumns` and `insufficientPoints` are the two `ValueError`s of
`load_plate_long`. -/
inductive PipeErr where
  | indexError
  | layoutNotDetected (best : Option ℤ)
  | tooFewColumns
  | insufficientPoints
  | castError
  | letterIndexError
  | duplicateLabels
deriving DecidableEq

/-- The search loop including the `df.iloc[r1, ...]` / `df.iloc[r2, ...]`
scalar row bound checks (raising `IndexError` on a row index past the
frame). -/
def searchFold (df : Grid) : List ((ℕ × ℕ) × ℕ) → Option BestW → Except PipeErr (Option BestW)
  | [], best => .ok best
  | c :: rest, best =>
      if df.length ≤ c.1.1 ∨ df.length ≤ c.1.2 then .error .indexError
      else searchFold df rest (stepPure df best c)

/-- The full window search of `load_plate_matrix_auto` (lines 142-154). -/
def searchBest (df : Grid) : Except PipeErr (Option BestW) :=
  searchFold df (searchedCandidates (ncolsOf df)) none

/-- Lines 142-156: the search followed by
`if not best or best[4] < 300: raise ValueError(...)`. -/
def detectWindow (df : Grid) : Except PipeErr BestW :=
  match searchBest df with
  | .error e => .error e
  | .ok none => .error (.layoutNotDetected none)
  | .ok (some b) =>
      if b.score < 300 then .error (.layoutNotDetected (some b.score)) else .ok b

/-- `pd.to_numeric(...).astype(int)` on a header slice: raises a
`ValueError` when any cell is NA, otherwise truncates toward zero. -/
def toIntHeader (cells : List Cell) : Except PipeErr (List ℤ) :=
  match cells.mapM id with
  | some qs => .ok (qs.map pyInt)
  | none => .error .castError

/-- `Series.min` over the already-collected defined values, written as a
strict fold (so that it evaluates by kernel reduction; extensionally this
is the list minimum). -/
def seriesMinFold {α : Type} [LT α] [DecidableRel (fun a b : α => a < b)] : α → List α → α
  | a, [] => a
  | a, b :: bs => match decide (b < a) with
    | true => seriesMinFold b bs
    | false => seriesMinFold a bs

/-- `Series.min`: `none` on an empty series (pandas NaN). -/
def seriesMin? {α : Type} [LT α] [DecidableRel (fun a b : α => a < b)] : List α → Option α
  | [] => none
  | a :: as => some (seriesMinFold a as)

/-- Lines 163-165: shift both header vectors to 1-based when either
minimum is 0. -/
def shiftIfZero (rowNums colNums : List ℤ) : List ℤ × List ℤ :=
  if seriesMin? rowNums == some 0 || seriesMin? colNums == some 0 then
    (rowNums.map (· + 1), colNums.map (· + 1))
  else (rowNums, colNums)

/-- Lines 159-168: parse the two header rows of the accepted window,
apply the zero shift, index the FULL alphabet (`string.ascii_uppercase`,
not the A..P prefix) with Python semantics, and build the normalized well
labels. -/
def autoWellIds (df : Grid) (b : BestW) : Except PipeErr (List String) :=
  match toIntHeader (sliceRow df b.r1 b.start b.stop),
        toIntHeader (sliceRow df b.r2 b.start b.stop) with
  | .error e, _ => .error e
  | .ok _, .error e => .error e
  | .ok rowNums0, .ok colNums0 =>
    match (shiftIfZero rowNums0 colNums0).1.mapM (fun r => pyGet asciiUppercase (r - 1)) with
    | none => .error .letterIndexError
    | some letters =>
        .ok ((letters.zip (shiftIfZero rowNums0 colNums0).2).map
          (fun lc => normalize_well_id (String.mk [lc.1] ++ toString lc.2)))

/-- `df.iloc[r2+1:, start:end]`: the measurement block under the headers. -/
def dataBlock (df : Grid) (b : BestW) : List (List Cell) :=
  (df.drop (b.r2 + 1)).map (fun row => (row.drop b.start).take (b.stop - b.start))

/-- `data.columns = well_ids`: column `j` of the block is labeled with the
`j`-th well label and holds the `j`-th entry of every measurement row. -/
def columnsOf (ids : List String) (rows : List (List Cell)) : List (String × List Cell) :=
  ids.enum.map (fun jw => (jw.2, rows.map (fun row => (row.get? jw.1).getD none)))

/-- The fill-and-reindex idiom shared by the plate loaders (lines 125-128
and 175-178): add an all-missing column for every canonical well that is
absent, then reindex the columns to the canonical 384-well order.  This
is the non-raising outcome of `pandas.reindex`; the raising outcome on a
duplicated column axis is modelled separately by `reindexDup` (checked
explicitly on the auto path, where a theorem concludes acceptance;
theorems about the other paths only assume acceptance, so there the
collapse of the raise into this total function is immaterial). -/
def completeWells {α : Type} (missing : α) (cols : List (String × α)) : List (String × α) :=
  let filled := cols ++ (all_well_ids_384.filter (fun w => (cols.lookup w).isNone)).map
    (fun w => (w, missing))
  all_well_ids_384.map (fun w => (w, (filled.lookup w).getD missing))

/-- Duplicate scan of a label list (Python-side, a label equal to an
earlier one): `pandas.Index.is_unique` is false exactly when this is
true, and `DataFrame.reindex` then raises
`ValueError("cannot reindex on an axis with duplicate labels")`. -/
def hasDupAux : List String → List String → Bool
  | [], _ => false
  | a :: as, seen =>
    match seen.contains a with
    | true => true
    | false => hasDupAux as (a :: seen)

def hasDup (l : List String) : Bool := hasDupAux l []

/-- Whether the reindex of the fill-and-reindex idiom raises: at the
`reindex` call the column axis holds the labels of `cols` followed by
one fresh column per absent canonical well (appended by the
`data[wid] = np.nan` loop, so those are pairwise distinct and disjoint
from the existing labels), and the reindex raises exactly when that
axis carries a duplicate label. -/
def reindexDup {α : Type} (cols : List (String × α)) : Bool :=
  hasDup (cols.map Prod.fst ++
    all_well_ids_384.filter (fun w => (cols.lookup w).isNone))

/-- `np.linspace(t_min, t_max, n)` (used only as the row index of the
plate matrices; the claims concern columns and error behaviour). -/
def build_uniform_temperature_grid (n : ℕ) (tminC tmaxC : ℚ) : List ℚ :=
  if n = 1 then [tminC]
  else (List.range n).map (fun i => tminC + (tmaxC - tminC) * i / (n - 1))

/-- `load_plate_matrix_auto(df, ...)` (lines 140-179): detection,
extraction of the block, well-label construction, and the final
fill-and-reindex to the canonical 384-well columns — which raises
pandas' duplicate-label `ValueError` when the constructed well labels
contain a repeat, and otherwise silently keeps only the canonical
columns.  Note: no `n_points` check of any kind is performed on this
path; the temperature grid
(`build_uniform_temperature_grid (dataBlock df b).length`) only labels
the rows. -/
def load_plate_matrix_auto (df : Grid) :
    Except PipeErr (List (String × List Cell) × BestW) :=
  match detectWindow df with
  | .error e => .error e
  | .ok b =>
    match autoWellIds df b with
    | .error e => .error e
    | .ok ids =>
      match reindexDup (columnsOf ids (dataBlock df b)) with
      | true => .error .duplicateLabels
      | false =>
        .ok (completeWells (List.replicate (dataBlock df b).length (none : Cell))
          (columnsOf ids (dataBlock df b)), b)

/-- Column 0 of a long-form sheet (`load_plate_long`, lines 97-128):
the row coordinate, coerced numerically. -/
def longRowCoords (df : Grid) : List (Option ℚ) := df.map (fun row => (row.get? 0).getD none)

def longColCoords (df : Grid) : List (Option ℚ) := df.map (fun row => (row.get? 1).getD none)

/-- `if (r.min() == 0) or (c.min() == 0)` (`Series.min` skips NA, so the
minimum of an all-NA column is NaN and never equals 0). -/
def longShift (df : Grid) : Bool :=
  (seriesMin? ((longRowCoords df).filterMap id) == some (0 : ℚ))
    || (seriesMin? ((longColCoords df).filterMap id) == some (0 : ℚ))

/-- The rows surviving `r.between(1,16) & c.between(1,24)` after the
0/1-based shift, each with its measurement cells (columns 2..). -/
def longKeep (df : Grid) : List (ℚ × ℚ × List Cell) :=
  let r := if longShift df then (longRowCoords df).map (Option.map (· + 1))
           else longRowCoords df
  let c := if longShift df then (longColCoords df).map (Option.map (· + 1))
           else longColCoords df
  ((r.zip c).zip (df.map (fun row => row.drop 2))).filterMap (fun t =>
    match t.1.1, t.1.2 with
    | some rv, some cv =>
        if 1 ≤ rv ∧ rv ≤ 16 ∧ 1 ≤ cv ∧ cv ≤ 24 then some (rv, cv, t.2) else none
    | _, _ => none)

/-- One column per surviving input row, labeled
`normalize_well_id(well_id_from_rowcol(r, c))`. -/
def longCols (df : Grid) : List (String × List Cell) :=
  (longKeep df).map (fun t =>
    (((well_id_from_rowcol t.1 t.2.1).map normalize_well_id).getD "", t.2.2))

/-- `load_plate_long(path, ...)` (lines 97-128): raises on fewer than 3
columns; raises `insufficientPoints` when there are fewer than 2
measurement columns; otherwise reindexes the surviving columns to the
canonical 384 wells.  (`well_id_from_rowcol` cannot raise inside
`longCols` because the mask pins `r` to [1,16]; the `getD ""` default is
unreachable.) -/
def load_plate_long (df : Grid) : Except PipeErr (List (String × List Cell)) :=
  if ncolsOf df < 3 then .error .tooFewColumns
  else if ncolsOf df - 2 < 2 then .error .insufficientPoints
  else .ok (completeWells (List.replicate (ncolsOf df - 2) (none : Cell)) (longCols df))

/-- `pm.reindex(all_well_ids_384())` (line 90): the platemap after the
sample/concentration join, reindexed to the canonical 384 wells; rows
absent from the annotation source get missing Condition and
Concentration.  (pandas raises on a duplicated index; the theorems
about this path only describe the non-raising outcome, on which the
collapse of the raise into a total first-match lookup is immaterial.) -/
def load_platemap_reindex (pm : List (String × Option String × Option ℚ)) :
    List (String × Option String × Option ℚ) :=
  all_well_ids_384.map (fun w => (w, (pm.lookup w).getD (none, none)))

/-! ### NPARC engine (`run_nparc_external` in `test_nparc.py`)

The platemap row, condition grouping, eligibility gates, per-temperature
record collection and summary emission are embedded faithfully; the two
SciPy numerical routines (`curve_fit` inside `_fit_4pl`, and
`mannwhitneyu`) are abstracted as oracle parameters, quantified over in
the theorems. -/

/-- One platemap row: well id, Condition, Concentration (NaN = `none`). -/
structure PMRow where
  well : String
  cond : Option String
  conc : Option ℚ
deriving DecidableEq

/-- The group filter `Condition.notna() & (astype(str).strip() != "")`. -/
def validCond : Option String → Bool
  | none => false
  | some s => !(pyStrip s == "")

/-- Deduplication keeping the first occurrence, with an accumulator of
already-seen elements (dict/groupby key order; pandas sorts group keys,
but every claim below is order-independent, so first-occurrence order is
used). -/
def dedupFirstAux {α : Type} [DecidableEq α] (seen : List α) : List α → List α
  | [] => []
  | x :: xs => if x ∈ seen then dedupFirstAux seen xs else x :: dedupFirstAux (x :: seen) xs

/-- Deduplication keeping the first occurrence. -/
def dedupFirst {α : Type} [DecidableEq α] (l : List α) : List α := dedupFirstAux [] l

/-- The distinct non-empty condition labels of the platemap. -/
def condKeys (pm : List PMRow) : List String :=
  dedupFirst (pm.filterMap (fun r => if validCond r.cond then r.cond else none))

/-- The wells of one condition group, in platemap row order. -/
def wellsOf (pm : List PMRow) (c : String) : List String :=
  pm.filterMap (fun r => if validCond r.cond && (r.cond == some c) then some r.well else none)

/-- `_condition_groups(platemap)`. -/
def conditionGroups (pm : List PMRow) : List (String × List String) :=
  (condKeys pm).map (fun c => (c, wellsOf pm c))

/-- `platemap.loc[w, "Concentration"]` / `conc_map.get(w, nan)`. -/
def concOf (pm : List PMRow) (w : String) : Option ℚ :=
  (pm.find? (fun r => r.well == w)).bind PMRow.conc

/-- `np.round` ties-to-even on a rational. -/
def roundHalfEven (x : ℚ) : ℤ :=
  if x - ⌊x⌋ < 1/2 then ⌊x⌋
  else if 1/2 < x - ⌊x⌋ then ⌊x⌋ + 1
  else if ⌊x⌋ % 2 = 0 then ⌊x⌋ else ⌊x⌋ + 1

/-- `np.round(x, 12)`. -/
def round12 (x : ℚ) : ℚ := (roundHalfEven (x * 10 ^ 12) : ℚ) / 10 ^ 12

/-- A wide matrix: association list of (well label, per-temperature
values); value `none` is NaN. -/
abbrev WideCols := List (String × List Cell)

/-- `wide_k.iloc[ti][w] if w in wide_k.columns else np.nan`. -/
def wideVal (cols : WideCols) (ti : ℕ) (w : String) : Option ℚ :=
  match cols.lookup w with
  | none => none
  | some col => (col.get? ti).getD none

/-- The finite (concentration, signal) pairs of a condition group at one
temperature index, in well order (the joint finiteness mask `m`). -/
def pairsAt (pm : List PMRow) (cols : WideCols) (wells : List String) (ti : ℕ) :
    List (ℚ × ℚ) :=
  wells.filterMap (fun w => match concOf pm w, wideVal cols ti w with
    | some x, some y => some (x, y)
    | _, _ => none)

/-- `if len(x) < 3 or len(np.unique(np.round(x, 12))) < 2: continue`. -/
def tempGate (ps : List (ℚ × ℚ)) : Bool :=
  decide (3 ≤ ps.length) && decide (2 ≤ (dedupFirst (ps.map (fun p => round12 p.1))).length)

/-- `_fit_null_const`: RSS of the constant-mean model.  The gate
guarantees ≥ 3 finite pairs, so the `mask.sum() < 2` branch cannot fire
and the RSS is always defined here. -/
def rssNull (ps : List (ℚ × ℚ)) : ℚ :=
  let ys := ps.map Prod.snd
  let mu := ys.sum / (ys.length : ℚ)
  (ys.map (fun y => (y - mu) ^ 2)).sum

/-- The two SciPy calls as oracles.  `fit4pl xs ys` is the RSS of the
4-parameter log-logistic fit of `_fit_4pl` (`none` = `curve_fit` raised,
RSS recorded as NaN); `mwuLess xs ys` is
`mannwhitneyu(xs, ys, alternative="less", method="auto")` returning
`(U, p)` (`none` = the call raised and the `except` branch stores NaN). -/
structure NparcOracles where
  fit4pl : List ℚ → List ℚ → Option ℚ
  mwuLess : List ℚ → List ℚ → Option (ℚ × ℚ)

/-- One row of the `NPARC RSS (long)` table (a PerTemperatureFit). -/
structure RSSRow where
  condition : String
  temperature : ℚ
  rss_null : ℚ
  rss_alt : ℚ
  n_points : ℕ
  value_type : String
deriving DecidableEq

/-- The per-temperature loop of `run_nparc_external` for one condition:
a record is kept exactly when the gate passes and both RSS values are
finite (RSS_null always is at a gated temperature; RSS_alt is when the
oracle succeeds). -/
def condTempRecords (O : NparcOracles) (vt : String) (pm : List PMRow) (cols : WideCols)
    (temps : List ℚ) (wells : List String) (cond : String) : List RSSRow :=
  temps.enum.filterMap (fun titC =>
    if tempGate (pairsAt pm cols wells titC.1) then
      match O.fit4pl ((pairsAt pm cols wells titC.1).map Prod.fst)
            ((pairsAt pm cols wells titC.1).map Prod.snd) with
      | some r1 => some ⟨cond, titC.2, rssNull (pairsAt pm cols wells titC.1), r1,
          (pairsAt pm cols wells titC.1).length, vt⟩
      | none => none
    else none)

/-- `len(np.unique(np.round(conc_vals, 12))) < 3` eligibility gate
(concentrations of the group's wells, NaN dropped). -/
def eligibleConcW (pm : List PMRow) (wells : List String) : Bool :=
  decide (3 ≤ (dedupFirst ((wells.filterMap (concOf pm)).map round12)).length)

/-- Generic insertion step for a Bool-valued `le`. -/
def insertLe {α : Type} (le : α → α → Bool) (a : α) : List α → List α
  | [] => [a]
  | b :: bs => if le b a then b :: insertLe le a bs else a :: b :: bs

/-- Stable insertion sort (elements inserted in list order). -/
def sortLe {α : Type} (le : α → α → Bool) (l : List α) : List α :=
  l.foldl (fun acc a => insertLe le a acc) []

/-- `np.nanmedian` of a list of finite values: middle of the sorted list,
or the mean of the two middles; `none` on the empty list (the source
guards with `if len(...)`). -/
def medianQ (l : List ℚ) : Option ℚ :=
  if l.length = 0 then none
  else
    let s := sortLe (fun a b => decide (a ≤ b)) l
    if l.length % 2 = 1 then s.get? (l.length / 2)
    else do
      let a ← s.get? (l.length / 2 - 1)
      let b ← s.get? (l.length / 2)
      pure ((a + b) / 2)

/-- One row of the `NPARC summary` table (a ConditionSummary). -/
structure CondSummary where
  condition : String
  n_temperatures : ℕ
  u_stat : Option ℚ
  p_value : Option ℚ
  median_rss_null : Option ℚ
  median_rss_alt : Option ℚ
  frac_alt_better : Option ℚ
  value_type : String
deriving DecidableEq

/-- The `U_stat`/`p_value` fields: the Mann-Whitney oracle applied to
(RSS_alt vector, RSS_null vector) in that order (`alternative="less"`,
i.e. RSS_alt stochastically smaller); NaN on the `except` branch. -/
def mwuFields (O : NparcOracles) (rss1 rss0 : List ℚ) : Option ℚ × Option ℚ :=
  match O.mwuLess rss1 rss0 with
  | some up => (some up.1, some up.2)
  | none => (none, none)

/-- The summary row built for a condition that passed the `len >= 5`
gate. -/
def mkSummary (O : NparcOracles) (vt : String) (cond : String) (recs : List RSSRow) :
    CondSummary :=
  let rss0 := recs.map RSSRow.rss_null
  let rss1 := recs.map RSSRow.rss_alt
  let up := mwuFields O rss1 rss0
  ⟨cond, recs.length, up.1, up.2, medianQ rss0, medianQ rss1,
    some ((((rss1.zip rss0).countP (fun ab => decide (ab.1 < ab.2))) : ℚ) / (recs.length : ℚ)), vt⟩

/-- The `summaries` list of `run_nparc_external` (before the BH block):
one row per condition group passing the ≥3-distinct-concentration gate
whose per-temperature loop produced ≥ 5 paired finite RSS values.
(The re-filter `np.isfinite(rss0) & np.isfinite(rss1)` on the collected
lists is the identity: entries were appended only when both were
finite.) -/
def nparcSummaries (O : NparcOracles) (vt : String) (pm : List PMRow) (cols : WideCols)
    (temps : List ℚ) : List CondSummary :=
  (conditionGroups pm).filterMap (fun cw =>
    if eligibleConcW pm cw.2 then
      if 5 ≤ (condTempRecords O vt pm cols temps cw.2 cw.1).length then
        some (mkSummary O vt cw.1 (condTempRecords O vt pm cols temps cw.2 cw.1))
      else none
    else none)

/-- The `rows` list (`NPARC RSS (long)`): per-temperature records of all
concentration-eligible conditions, kept whether or not the ≥5 summary
gate passes. -/
def nparcRows (O : NparcOracles) (vt : String) (pm : List PMRow) (cols : WideCols)
    (temps : List ℚ) : List RSSRow :=
  (conditionGroups pm).flatMap (fun cw =>
    if eligibleConcW pm cw.2 then condTempRecords O vt pm cols temps cw.2 cw.1 else [])

/-! ### Benjamini-Hochberg block (`run_nparc_external` lines 147-162) -/

/-- The sort key order of `np.argsort`: NaN (`none`) sorts last. -/
def keyLe : Option ℚ → Option ℚ → Bool
  | some x, some y => decide (x ≤ y)
  | some _, none => true
  | none, none => true
  | none, some _ => false

/-- `np.argsort(pv)` with NaN-last placement.  (`np.argsort`'s default
introsort is unstable on ties; a stable sort is used here — the adjusted
values produced below are independent of the order of tied entries.) -/
def argsortNanLast (pv : List (Option ℚ)) : List ℕ :=
  sortLe (fun i j => keyLe ((pv.get? i).getD none) ((pv.get? j).getD none))
    (List.range pv.length)

/-- `np.minimum` NaN propagation: NaN if either argument is NaN. -/
def minNan : Option ℚ → Option ℚ → Option ℚ
  | some a, some b => some (min a b)
  | _, _ => none

/-- Tail of `np.minimum.accumulate` given the running value. -/
def cumMin (prev : Option ℚ) : List (Option ℚ) → List (Option ℚ)
  | [] => []
  | x :: xs => minNan prev x :: cumMin (minNan prev x) xs

/-- `np.minimum.accumulate`. -/
def cumMinList : List (Option ℚ) → List (Option ℚ)
  | [] => []
  | x :: xs => x :: cumMin x xs

/-- The scatter `q_adj[order] = q_sorted` (into an array of length `m`;
`np.empty` garbage is modelled as `none`, and when `order` is a
permutation every slot is overwritten). -/
def scatterBy (m : ℕ) (order : List ℕ) (vals : List (Option ℚ)) : List (Option ℚ) :=
  (order.zip vals).foldl (fun acc iv => acc.set iv.1 iv.2) (List.replicate m none)

/-- The BH computation applied to the p-value column of one value_type
group (lines 151-157): `m = len(pv)` (NaN entries included), ranks from
the NaN-last argsort, `q = pv*m/ranks`, reverse running minimum with
NaN propagation, scatter back to original positions. -/
def bhGroup (pv : List (Option ℚ)) : List (Option ℚ) :=
  scatterBy pv.length (argsortNanLast pv)
    (cumMinList (((argsortNanLast pv).enum.map (fun ii =>
      ((pv.get? ii.2).getD none).map
        (fun p => p * (pv.length : ℚ) / ((ii.1 : ℚ) + 1)))).reverse)).reverse

/-- A summary row as seen by the BH block: its value_type and p-value. -/
structure BHRow where
  value_type : String
  p_value : Option ℚ
deriving DecidableEq

/-- Lines 147-162: if the summary is nonempty and some p-value is
defined, group by value_type and append the `p_adj_BH` column per group;
otherwise set the whole column to NaN.  (pandas iterates groups in sorted
key order; first-occurrence order is used here — the per-row adjusted
values are identical, only the concatenation order differs.) -/
def correctSummaries (rows : List BHRow) : List (BHRow × Option ℚ) :=
  if !rows.isEmpty && rows.any (fun r => r.p_value.isSome) then
    (dedupFirst (rows.map BHRow.value_type)).flatMap (fun vt =>
      let sub := rows.filter (fun r => r.value_type == vt)
      sub.zip (bhGroup (sub.map BHRow.p_value)))
  else rows.map (fun r => (r, none))

/-! ### The candidate set asserted by the specification (for C9) -/

/-- The candidate windows described by the specification's words: header
pairs of 2 adjacent rows out of the first 4 rows of the grid (rows 0..3),
and the first 20 possible column offsets (0..19), restricted to windows
that fit.  Defined from the spec text, to be compared with
`searchedCandidates` (the set the code actually scores). -/
def claimedCandidates (ncols : ℕ) : List ((ℕ × ℕ) × ℕ) :=
  [(0, 1), (1, 2), (2, 3)].flatMap (fun p =>
    ((List.range 20).filter (fun s => decide (s + 384 ≤ ncols))).map (fun s => (p, s)))

/-! ### Concrete grids and data used by witnesses and counterexamples -/

/-- A perfect row-number header: 1..16, each repeated 24 times. -/
def hdrRowVals : List Cell := (List.range 384).map (fun i => some ((i / 24 + 1 : ℕ) : ℚ))

/-- A perfect column-number header: 1..24 cycling. -/
def hdrColVals : List Cell := (List.range 384).map (fun i => some ((i % 24 + 1 : ℕ) : ℚ))

/-- A 0-based row-number header: 0..15, each repeated 24 times. -/
def hdrRowVals0 : List Cell := (List.range 384).map (fun i => some ((i / 24 : ℕ) : ℚ))

/-- A row of unparsable cells. -/
def noiseRow : List Cell := List.replicate 384 (none : Cell)

/-- A measurement row whose values (1000) are outside both header
ranges, so data rows never out-score a real header pair. -/
def bigRow : List Cell := List.replicate 384 (some (1000 : ℚ))

/-- A 2-row grid with a perfect header pair at rows (0,1): the window
search scores (0,1) at 384, then crashes indexing row 2. -/
def gTwoRows : Grid := [hdrRowVals, hdrColVals]

/-- A 5-row grid with the header pair at rows (0,1) and 3 data rows. -/
def gHeadersTop : Grid := [hdrRowVals, hdrColVals, bigRow, bigRow, bigRow]

/-- A 5-row grid whose header pair sits at rows (3,4): accepted with
score 384 and zero measurement rows below the headers. -/
def gHeadersBottom : Grid := [noiseRow, noiseRow, noiseRow, hdrRowVals, hdrColVals]

/-- A 5-row grid with 0-based row numbers and 1-based column numbers:
the zero shift bumps the column numbers to 2..25, so the wells of
column 25 fall outside the canonical universe. -/
def gShiftedCols : Grid := [hdrRowVals0, hdrColVals, bigRow, bigRow, bigRow]

/-- A 1-row long-form sheet with exactly one measurement column. -/
def dfLongOnePoint : Grid := [[some 1, some 1, some 5]]

/-- A tiny platemap with one condition over three wells at three
distinct concentrations. -/
def pmX : List PMRow :=
  [⟨"A1", some "X", some 1⟩, ⟨"A2", some "X", some 2⟩, ⟨"A3", some "X", some 3⟩]

/-- A matching wide matrix with 5 temperatures of defined signal. -/
def colsX : WideCols :=
  [("A1", List.replicate 5 (some (1 : ℚ))),
   ("A2", List.replicate 5 (some (2 : ℚ))),
   ("A3", List.replicate 5 (some (3 : ℚ)))]

/-- Five temperature labels. -/
def tempsX : List ℚ := [30, 40, 50, 60, 70]

/-- Concrete SciPy oracles: the 4pLL fit always converges with RSS 1,
the Mann-Whitney call returns (U, p) = (2, 1/100). -/
def oraclesX : NparcOracles := ⟨fun _ _ => some 1, fun _ _ => some (2, 1/100)⟩

/-- A tiny single-column input for the reindex witness. -/
def colsW : WideCols := [("A1", [some (1 : ℚ)])]


/-- The expected well labels of `gShiftedCols` after the zero shift:
A..P crossed with column numbers 2..25 (column 25 is outside the
canonical universe). -/
def idsShift : List String :=
  lettersAP.flatMap (fun r => (List.range' 2 24).map (fun c => String.mk [r] ++ toString c))

/-- The window detected on `gShiftedCols` (score 360: the 24 cells of
the 0-based row number 0 fail the [1,16] check; every column-24 cell
passes and contributes). -/
def bShift : BestW := ⟨0, 1, 0, 384, 360⟩

/-- Staged evaluation of `autoWellIds gShiftedCols bShift`: the parsed
0-based row header. -/
def rowNums0Shift : List ℤ := (List.range 384).map (fun i => ((i / 24 : ℕ) : ℤ))

/-- The parsed 1-based column header of `gShiftedCols`. -/
def colNums0Shift : List ℤ := (List.range 384).map (fun i => ((i % 24 + 1 : ℕ) : ℤ))

/-- The row header after the zero shift. -/
def rowNumsShift : List ℤ := (List.range 384).map (fun i => ((i / 24 + 1 : ℕ) : ℤ))

/-- The column header after the zero shift: 2..25. -/
def colNumsShift : List ℤ := (List.range 384).map (fun i => ((i % 24 + 2 : ℕ) : ℤ))

/-- The row letters of the shifted header. -/
def lettersShift : List Char := lettersAP.flatMap (fun ch => List.replicate 24 ch)

/-- A 1-based column header with a repeat: position 1 carries column 1
again (like position 0) instead of column 2; every value still lies in
[1, 24]. -/
def hdrColValsDup : List Cell :=
  (List.range 384).map (fun i =>
    if i = 1 then some (1 : ℚ) else some ((i % 24 + 1 : ℕ) : ℚ))

/-- A 5-row grid with 0-based row numbers and the repeating column
header: the zero shift bumps the columns to 2..25 with positions 0 and
1 both becoming well A2, and every column-25 well (e.g. B25) lies
outside the canonical universe although its raw header cells scored. -/
def gDup : Grid := [hdrRowVals0, hdrColValsDup, bigRow, bigRow, bigRow]

/-- The parsed repeating column header of `gDup`. -/
def colNums0Dup : List ℤ :=
  (List.range 384).map (fun i => if i = 1 then (1 : ℤ) else ((i % 24 + 1 : ℕ) : ℤ))

/-- The repeating column header of `gDup` after the zero shift. -/
def colNumsDup : List ℤ :=
  (List.range 384).map (fun i => if i = 1 then (2 : ℤ) else ((i % 24 + 2 : ℕ) : ℤ))

/-- The well labels constructed on `gDup`: position 1 repeats A2, and
columns 24k+23 carry the out-of-universe column number 25. -/
def idsDup : List String :=
  (List.range 384).map (fun i =>
    if i = 1 then "A2"
    else String.mk [(lettersAP.get? (i / 24)).getD 'A'] ++ toString (i % 24 + 2))

/-! ## Theorems -/


theorem pyGet_eq_none_iff {α : Type} (l : List α) (i : ℤ) :
    pyGet l i = none ↔ i < -(l.length : ℤ) ∨ (l.length : ℤ) ≤ i := by
  unfold pyGet
  by_cases h0 : 0 ≤ i
  · simp only [if_pos h0]
    by_cases h : 0 ≤ i ∧ i < (l.length : ℤ)
    · rw [if_pos h, List.get?_eq_none]
      omega
    · rw [if_neg h]
      simp only [true_iff]
      omega
  · simp only [if_neg h0]
    by_cases h : 0 ≤ i + (l.length : ℤ) ∧ i + (l.length : ℤ) < (l.length : ℤ)
    · rw [if_pos h, List.get?_eq_none]
      omega
    · rw [if_neg h]
      simp only [true_iff]
      omega

theorem c6_encode_amended (row_no col_no : ℚ) :
    well_id_from_rowcol row_no col_no = none ↔
      pyInt row_no ≤ -16 ∨ 17 ≤ pyInt row_no := by
  unfold well_id_from_rowcol
  rw [Option.map_eq_none', pyGet_eq_none_iff]
  have h16 : lettersAP.length = 16 := rfl
  rw [h16]
  omega

theorem c6_encode_counterexample :
    well_id_from_rowcol 0 1 = some "P1" ∧ well_id_from_rowcol 1 25 = some "A25" := by
  exact ⟨by decide, by decide⟩

theorem c7_normalize_counterexample :
    normalize_well_id "z1" = "Z1" ∧ ("Z1" : String) ≠ "z1" := by
  exact ⟨by decide, by decide⟩

theorem c7_normalize_amended (x : String) :
    (∀ c n, wellIdMatch (pyUpper (pyStrip x)) = some (c, n) →
      normalize_well_id x = String.mk [c] ++ toString n) ∧
    (wellIdMatch (pyUpper (pyStrip x)) = none →
      normalize_well_id x = pyUpper (pyStrip x)) := by
  unfold normalize_well_id wellIdMatch
  cases hy : (pyUpper (pyStrip x)).data with
  | nil =>
    refine ⟨fun c n h => ?_, fun _ => rfl⟩
    cases h
  | cons c0 rest =>
    dsimp only
    by_cases hmem : c0 ∈ lettersAP
    · simp only [if_pos hmem]
      cases hp : parseColCore (rest.dropWhile (fun d => d == '0')) with
      | none =>
        refine ⟨fun c n h => ?_, fun _ => rfl⟩
        cases h
      | some m =>
        refine ⟨fun c n h => ?_, fun h => ?_⟩
        · injection h with h2
          cases h2
          rfl
        · cases h
    · simp only [if_neg hmem]
      refine ⟨fun c n h => ?_, fun _ => ?_⟩
      · cases h
      · trivial

/-- Witness for C7 (amended): the padded lower-case input "a01" matches
and comes back as the canonical "A1"; the stripped input " q3 " fails
the match (Q is past P) and comes back stripped and uppercased. -/
theorem c7_normalize_witness :
    normalize_well_id "a01" = "A1" ∧ normalize_well_id " q3 " = "Q3" := by
  refine ⟨?_, ?_⟩
  · have h := (c7_normalize_amended "a01").1 'A' 1 (by decide)
    rw [h]
    decide
  · have h := (c7_normalize_amended " q3 ").2 (by decide)
    rw [h]
    decide

set_option maxHeartbeats 4000000 in
theorem c8_roundtrip (r c : ℕ) (h1 : 1 ≤ r) (h2 : r ≤ 16) (h3 : 1 ≤ c) (h4 : c ≤ 24) :
    (well_id_from_rowcol (r : ℚ) (c : ℚ)).map normalize_well_id
      = well_id_from_rowcol (r : ℚ) (c : ℚ) := by
  have H : ((List.range' 1 16).all fun rr => (List.range' 1 24).all fun cc =>
      decide ((well_id_from_rowcol (rr : ℚ) (cc : ℚ)).map normalize_well_id
        = well_id_from_rowcol (rr : ℚ) (cc : ℚ))) = true := by decide
  rw [List.all_eq_true] at H
  have hr : r ∈ List.range' 1 16 := by rw [List.mem_range'_1]; omega
  have H2 := H r hr
  rw [List.all_eq_true] at H2
  have hc : c ∈ List.range' 1 24 := by rw [List.mem_range'_1]; omega
  exact of_decide_eq_true (H2 c hc)

theorem c8_roundtrip_witness :
    (well_id_from_rowcol ((3 : ℕ) : ℚ) ((7 : ℕ) : ℚ)).map normalize_well_id
      = well_id_from_rowcol ((3 : ℕ) : ℚ) ((7 : ℕ) : ℚ) :=
  c8_roundtrip 3 7 (by decide) (by decide) (by decide) (by decide)

theorem lookup_map_self {α : Type} (g : String → α) (L : List String) (w : String)
    (hw : w ∈ L) : (L.map (fun v => (v, g v))).lookup w = some (g w) := by
  induction L with
  | nil => cases hw
  | cons a as ih =>
    simp only [List.map_cons, List.lookup]
    by_cases hwa : w = a
    · subst hwa
      simp
    · rw [show (w == a) = false from beq_eq_false_iff_ne.mpr hwa]
      exact ih (List.mem_cons.mp hw |>.resolve_left hwa)

theorem lookup_append_of_none {α β : Type} [BEq α] (l1 l2 : List (α × β)) (k : α)
    (h : l1.lookup k = none) : (l1 ++ l2).lookup k = l2.lookup k := by
  induction l1 with
  | nil => rfl
  | cons a as ih =>
    simp only [List.lookup, List.cons_append] at h ⊢
    cases hk : (k == a.1) with
    | true => rw [hk] at h; simp at h
    | false => rw [hk] at h; exact ih h

theorem lookup_append_of_some {α β : Type} [BEq α] (l1 l2 : List (α × β)) (k : α) (v : β)
    (h : l1.lookup k = some v) : (l1 ++ l2).lookup k = some v := by
  induction l1 with
  | nil => cases h
  | cons a as ih =>
    simp only [List.lookup, List.cons_append] at h ⊢
    cases hk : (k == a.1) with
    | true => rw [hk] at h; exact h
    | false => rw [hk] at h; exact ih h

theorem completeWells_keys {α : Type} (missing : α) (cols : List (String × α)) :
    (completeWells missing cols).map Prod.fst = all_well_ids_384 := by
  unfold completeWells
  rw [List.map_map]
  exact List.map_id' all_well_ids_384

theorem completeWells_lookup_mem {α : Type} (missing : α) (cols : List (String × α))
    (w : String) (hw : w ∈ all_well_ids_384) :
    (completeWells missing cols).lookup w
      = some (((cols ++ (all_well_ids_384.filter (fun u => (cols.lookup u).isNone)).map
          (fun u => (u, missing))).lookup w).getD missing) := by
  unfold completeWells
  exact lookup_map_self _ _ _ hw

theorem completeWells_lookup_absent {α : Type} (missing : α) (cols : List (String × α))
    (w : String) (hw : w ∈ all_well_ids_384) (habs : cols.lookup w = none) :
    (completeWells missing cols).lookup w = some missing := by
  rw [completeWells_lookup_mem missing cols w hw]
  rw [lookup_append_of_none _ _ _ habs]
  have hwf : w ∈ all_well_ids_384.filter (fun u => (cols.lookup u).isNone) :=
    List.mem_filter.mpr ⟨hw, by simp [habs]⟩
  rw [lookup_map_self (fun _ => missing) _ _ hwf]
  rfl

theorem completeWells_lookup_present {α : Type} (missing : α) (cols : List (String × α))
    (w : String) (hw : w ∈ all_well_ids_384) (v : α) (hv : cols.lookup w = some v) :
    (completeWells missing cols).lookup w = some v := by
  rw [completeWells_lookup_mem missing cols w hw]
  rw [lookup_append_of_some _ _ _ _ hv]
  rfl

theorem toIntHeader_err (cells : List Cell) (e : PipeErr) (h : toIntHeader cells = .error e) :
    e = .castError := by
  unfold toIntHeader at h
  split at h
  · cases h
  · cases h
    rfl

theorem autoWellIds_err_cases (df : Grid) (b : BestW) (e : PipeErr)
    (h : autoWellIds df b = .error e) : e = .castError ∨ e = .letterIndexError := by
  unfold autoWellIds at h
  split at h
  · cases h
    exact Or.inl (toIntHeader_err _ _ (by assumption))
  · cases h
    exact Or.inl (toIntHeader_err _ _ (by assumption))
  · split at h
    · cases h
      exact Or.inr rfl
    · cases h

theorem searchFold_err (df : Grid) (l : List ((ℕ × ℕ) × ℕ)) (acc : Option BestW) (e : PipeErr)
    (h : searchFold df l acc = .error e) : e = .indexError := by
  induction l generalizing acc with
  | nil => cases h
  | cons c rest ih =>
    unfold searchFold at h
    split at h
    · cases h
      rfl
    · exact ih _ h

theorem detectWindow_err_cases (df : Grid) (e : PipeErr) (h : detectWindow df = .error e) :
    e = .indexError ∨ ∃ s, e = .layoutNotDetected s := by
  unfold detectWindow at h
  split at h
  · cases h
    exact Or.inl (searchFold_err df _ none _ (by assumption))
  · cases h
    exact Or.inr ⟨none, rfl⟩
  · split at h
    · cases h
      exact Or.inr ⟨_, rfl⟩
    · cases h

theorem auto_never_insufficientPoints (df : Grid) :
    load_plate_matrix_auto df ≠ .error .insufficientPoints := by
  intro h
  unfold load_plate_matrix_auto at h
  split at h
  · cases h
    rcases detectWindow_err_cases df _ (by assumption) with h1 | ⟨s, h1⟩ <;> cases h1
  · split at h
    · cases h
      rcases autoWellIds_err_cases df _ _ (by assumption) with h1 | h1 <;> cases h1
    · split at h
      · simp at h
      · cases h

theorem load_plate_long_ok_keys (df : Grid) (M : List (String × List Cell))
    (h : load_plate_long df = .ok M) : M.map Prod.fst = all_well_ids_384 := by
  unfold load_plate_long at h
  split at h
  · cases h
  · split at h
    · cases h
    · cases h
      exact completeWells_keys _ _

theorem load_plate_matrix_auto_ok_keys (df : Grid)
    (out : List (String × List Cell) × BestW)
    (h : load_plate_matrix_auto df = .ok out) : out.1.map Prod.fst = all_well_ids_384 := by
  unfold load_plate_matrix_auto at h
  split at h
  · cases h
  · split at h
    · cases h
    · split at h
      · cases h
      · cases h
        exact completeWells_keys _ _

/-- Claim C4: for any accepted input, the PlateMatrix built on either the
long-form or the auto-detected path and the PlateMap contain exactly the
384 canonical WellIDs as columns/keys, in canonical order; wells absent
from the raw input carry the explicit missing marker (an all-NaN column,
resp. NaN Condition/Concentration), never an implicit zero. -/
theorem c4_completeness :
    (∀ (α : Type) (missing : α) (cols : List (String × α)),
      ((completeWells missing cols).map Prod.fst = all_well_ids_384) ∧
      (∀ w ∈ all_well_ids_384, cols.lookup w = none →
        (completeWells missing cols).lookup w = some missing) ∧
      (∀ w ∈ all_well_ids_384, ∀ v, cols.lookup w = some v →
        (completeWells missing cols).lookup w = some v))
    ∧ (∀ (df : Grid) (M : List (String × List Cell)),
        load_plate_long df = .ok M → M.map Prod.fst = all_well_ids_384)
    ∧ (∀ (df : Grid) (out : List (String × List Cell) × BestW),
        load_plate_matrix_auto df = .ok out → out.1.map Prod.fst = all_well_ids_384)
    ∧ (∀ pm, ((load_platemap_reindex pm).map Prod.fst = all_well_ids_384) ∧
        (∀ w ∈ all_well_ids_384, pm.lookup w = none →
          (load_platemap_reindex pm).lookup w = some (none, none))) := by
  refine ⟨?_, load_plate_long_ok_keys, load_plate_matrix_auto_ok_keys, ?_⟩
  · intro α missing cols
    exact ⟨completeWells_keys missing cols,
      fun w hw habs => completeWells_lookup_absent missing cols w hw habs,
      fun w hw v hv => completeWells_lookup_present missing cols w hw v hv⟩
  · intro pm
    constructor
    · unfold load_platemap_reindex
      rw [List.map_map]
      exact List.map_id' all_well_ids_384
    · intro w hw habs
      unfold load_platemap_reindex
      rw [lookup_map_self (fun w => (pm.lookup w).getD (none, none)) _ _ hw, habs]
      rfl

/-- Witness for C4 at a one-column input: the absent well B2 carries the
all-NaN column, the present well A1 keeps its data. -/
theorem c4_completeness_witness :
    (completeWells ([none] : List Cell) colsW).lookup "B2" = some [none] ∧
    (completeWells ([none] : List Cell) colsW).lookup "A1" = some [some (1 : ℚ)] :=
  ⟨(c4_completeness.1 _ [none] colsW).2.1 "B2" (by decide) (by decide),
   (c4_completeness.1 _ [none] colsW).2.2 "A1" (by decide) [some (1 : ℚ)] (by decide)⟩

/-- Claim C5 (amended): the `n_points ≥ 2` requirement exists only on the
long-form path (`load_plate_long` raises `insufficientPoints` exactly
when the sheet has ≥ 3 columns but fewer than 2 measurement columns);
the auto-detected matrix path performs no such check and can never raise
it — it accepts any number of measurement rows, including 0 and 1. -/
theorem c5_npoints_amended :
    (∀ df : Grid, ¬ ncolsOf df < 3 →
      (load_plate_long df = .error .insufficientPoints ↔ ncolsOf df - 2 < 2))
    ∧ (∀ df : Grid, load_plate_matrix_auto df ≠ .error .insufficientPoints) := by
  constructor
  · intro df h3
    unfold load_plate_long
    rw [if_neg h3]
    by_cases h2 : ncolsOf df - 2 < 2
    · rw [if_pos h2]
      simp [h2]
    · rw [if_neg h2]
      simp [h2]
  · exact auto_never_insufficientPoints

/-- Counterexample to C5 as stated: `gHeadersBottom` is accepted with its
header pair on rows (3,4) and zero measurement rows below (n_points = 0),
yet the auto path does not fail with the insufficient-points error. -/
theorem c5_npoints_counterexample :
    detectWindow gHeadersBottom = .ok ⟨3, 4, 0, 384, 384⟩ ∧
    (dataBlock gHeadersBottom ⟨3, 4, 0, 384, 384⟩).length = 0 ∧
    load_plate_matrix_auto gHeadersBottom ≠ .error .insufficientPoints := by
  refine ⟨by rfl, by rfl, auto_never_insufficientPoints _⟩

/-- Witness for C5 (amended), long path: a 3-column sheet (one
measurement column) raises the insufficient-points error. -/
theorem c5_npoints_witness :
    load_plate_long dfLongOnePoint = .error .insufficientPoints :=
  (c5_npoints_amended.1 dfLongOnePoint (by decide)).mpr (by decide)

theorem foldl_stepPure_spec (df : Grid) (l : List ((ℕ × ℕ) × ℕ)) (acc : Option BestW) :
    (l.foldl (stepPure df) acc = acc ∧ ∀ c ∈ l, scoreAt df c ≤ bestScoreOf acc)
    ∨ (∃ l1 c l2, l = l1 ++ c :: l2 ∧
        l.foldl (stepPure df) acc = some (mkBestW c (scoreAt df c)) ∧
        bestScoreOf acc < scoreAt df c ∧
        (∀ c1 ∈ l1, scoreAt df c1 < scoreAt df c) ∧
        (∀ c2 ∈ l2, scoreAt df c2 ≤ scoreAt df c)) := by
  induction l generalizing acc with
  | nil => exact Or.inl ⟨rfl, by simp⟩
  | cons c rest ih =>
    rw [List.foldl_cons]
    by_cases hc : bestScoreOf acc < scoreAt df c
    · rw [show stepPure df acc c = some (mkBestW c (scoreAt df c)) from by
        unfold stepPure; rw [if_pos hc]]
      rcases ih (some (mkBestW c (scoreAt df c))) with ⟨heq, hb⟩ | ⟨l1, c2, l2, hdec, heq, hgt, hbefore, hafter⟩
      · right
        refine ⟨[], c, rest, rfl, heq, hc, by simp, ?_⟩
        intro x hx
        have hle := hb x hx
        simpa [bestScoreOf, mkBestW] using hle
      · right
        have hcc2 : scoreAt df c < scoreAt df c2 := by
          simpa [bestScoreOf, mkBestW] using hgt
        refine ⟨c :: l1, c2, l2, by rw [hdec]; rfl, heq, by omega, ?_, hafter⟩
        intro x hx
        rcases List.mem_cons.mp hx with rfl | hx
        · exact hcc2
        · exact hbefore x hx
    · rw [show stepPure df acc c = acc from by unfold stepPure; rw [if_neg hc]]
      rcases ih acc with ⟨heq, hb⟩ | ⟨l1, c2, l2, hdec, heq, hgt, hbefore, hafter⟩
      · left
        refine ⟨heq, ?_⟩
        intro x hx
        rcases List.mem_cons.mp hx with rfl | hx
        · omega
        · exact hb x hx
      · right
        refine ⟨c :: l1, c2, l2, by rw [hdec]; rfl, heq, hgt, ?_, hafter⟩
        intro x hx
        rcases List.mem_cons.mp hx with rfl | hx
        · omega
        · exact hbefore x hx

theorem searchFold_eq_foldl (df : Grid) (l : List ((ℕ × ℕ) × ℕ)) (acc : Option BestW)
    (hb : ∀ c ∈ l, c.1.1 < df.length ∧ c.1.2 < df.length) :
    searchFold df l acc = .ok (l.foldl (stepPure df) acc) := by
  induction l generalizing acc with
  | nil => rfl
  | cons c rest ih =>
    unfold searchFold
    rw [if_neg ?bound]
    case bound =>
      have hcc := hb c (List.mem_cons_self _ _)
      omega
    rw [List.foldl_cons]
    exact ih _ (fun x hx => hb x (List.mem_cons_of_mem _ hx))

theorem searchedCandidates_mem_parts (ncols : ℕ) (c : (ℕ × ℕ) × ℕ) :
    c ∈ searchedCandidates ncols ↔ (c.1 ∈ row_pairs ∧ c.2 ∈ candidateStarts ncols) := by
  unfold searchedCandidates
  rw [List.mem_flatMap]
  constructor
  · rintro ⟨p, hp, hmem⟩
    rw [List.mem_map] at hmem
    rcases hmem with ⟨s, hs, rfl⟩
    exact ⟨hp, hs⟩
  · rintro ⟨hp, hs⟩
    exact ⟨c.1, hp, List.mem_map.mpr ⟨c.2, hs, rfl⟩⟩

theorem row_pairs_lt_five (p : ℕ × ℕ) (hp : p ∈ row_pairs) : p.1 < 5 ∧ p.2 < 5 := by
  fin_cases hp <;> exact ⟨by omega, by omega⟩

theorem mem_takeWhile_range' (p : ℕ → Bool)
    (hmono : ∀ a b : ℕ, a ≤ b → p b = true → p a = true) :
    ∀ (k a s : ℕ), s ∈ (List.range' a k).takeWhile p ↔ (a ≤ s ∧ s < a + k ∧ p s = true) := by
  intro k
  induction k with
  | zero =>
    intro a s
    constructor
    · intro h
      cases h
    · intro h
      omega
  | succ n ih =>
    intro a s
    rw [show List.range' a (n + 1) = a :: List.range' (a + 1) n from rfl]
    rw [List.takeWhile_cons]
    cases hpa : p a with
    | false =>
      simp only [Bool.false_eq_true, if_false, List.not_mem_nil, false_iff]
      intro hcon
      rw [hmono a s hcon.1 hcon.2.2] at hpa
      cases hpa
    | true =>
      simp only [if_true, List.mem_cons, ih (a + 1) s]
      constructor
      · rintro (rfl | ⟨h1, h2, h3⟩)
        · exact ⟨le_refl _, by omega, hpa⟩
        · exact ⟨by omega, by omega, h3⟩
      · rintro ⟨h1, h2, h3⟩
        by_cases hsa : s = a
        · exact Or.inl hsa
        · exact Or.inr ⟨by omega, by omega, h3⟩

theorem mem_candidateStarts (ncols s : ℕ) :
    s ∈ candidateStarts ncols ↔ (s ≤ searchBound ncols ∧ s + 384 ≤ ncols) := by
  unfold candidateStarts
  rw [List.range_eq_range']
  rw [mem_takeWhile_range' _ (fun a b hab hb => by
    simp only [decide_eq_true_eq] at hb ⊢
    omega) (searchBound ncols + 1) 0 s]
  simp only [decide_eq_true_eq]
  omega

theorem searchedCandidates_rows_lt (df : Grid) (h5 : 5 ≤ df.length) :
    ∀ c ∈ searchedCandidates (ncolsOf df), c.1.1 < df.length ∧ c.1.2 < df.length := by
  intro c hc
  have h := (searchedCandidates_mem_parts _ c).mp hc
  have h2 := row_pairs_lt_five c.1 h.1
  omega

theorem searchBest_eq_pure (df : Grid) (h5 : 5 ≤ df.length) :
    searchBest df = .ok (bestWindowPure df) :=
  searchFold_eq_foldl df _ none (searchedCandidates_rows_lt df h5)

theorem bestWindowPure_max (df : Grid) (b : BestW) (hbw : bestWindowPure df = some b) :
    ∃ l1 c l2, searchedCandidates (ncolsOf df) = l1 ++ c :: l2 ∧
      b = mkBestW c (scoreAt df c) ∧
      (∀ c1 ∈ l1, scoreAt df c1 < b.score) ∧
      (∀ c2 ∈ l2, scoreAt df c2 ≤ b.score) := by
  rcases foldl_stepPure_spec df (searchedCandidates (ncolsOf df)) none with
    ⟨heq, _⟩ | ⟨l1, c, l2, hdec, heq, _, hbefore, hafter⟩
  · unfold bestWindowPure at hbw
    rw [heq] at hbw
    cases hbw
  · unfold bestWindowPure at hbw
    rw [heq] at hbw
    injection hbw with hb2
    subst hb2
    exact ⟨l1, c, l2, hdec, rfl, hbefore, hafter⟩


theorem detectWindow_of_some (df : Grid) (b2 : BestW) (h : searchBest df = .ok (some b2)) :
    detectWindow df
      = if b2.score < 300 then .error (.layoutNotDetected (some b2.score)) else .ok b2 := by
  unfold detectWindow
  rw [h]

theorem detectWindow_of_none (df : Grid) (h : searchBest df = .ok none) :
    detectWindow df = .error (.layoutNotDetected none) := by
  unfold detectWindow
  rw [h]

/-- Claim C3 (amended): on grids with at least 5 rows (so the search can
visit every header pair without the uncaught `IndexError` of
`df.iloc`), detection accepts a window exactly when the best score over
all searched candidate windows is at least 300, and otherwise raises
`LayoutNotDetectedError` carrying the best score found (`NA` when no
384-wide window fits); on grids with at least 384 columns but fewer than
5 rows the search instead dies with `IndexError`
(`c3_threshold_counterexample`). -/
theorem c3_threshold_amended (df : Grid) (h5 : 5 ≤ df.length) :
    ((∃ b, detectWindow df = .ok b) ↔ (∃ b, bestWindowPure df = some b ∧ 300 ≤ b.score))
    ∧ (∀ b, bestWindowPure df = some b →
        (∀ c ∈ searchedCandidates (ncolsOf df), scoreAt df c ≤ b.score) ∧
        (b.score < 300 → detectWindow df = .error (.layoutNotDetected (some b.score))))
    ∧ (bestWindowPure df = none → detectWindow df = .error (.layoutNotDetected none)) := by
  have hs := searchBest_eq_pure df h5
  refine ⟨⟨?_, ?_⟩, ?_, ?_⟩
  · rintro ⟨b, hb⟩
    cases hbw : bestWindowPure df with
    | none =>
      rw [detectWindow_of_none df (by rw [hs, hbw])] at hb
      cases hb
    | some b2 =>
      rw [detectWindow_of_some df b2 (by rw [hs, hbw])] at hb
      by_cases h300 : b2.score < 300
      · rw [if_pos h300] at hb
        cases hb
      · rw [if_neg h300] at hb
        injection hb with hb3
        exact ⟨b2, rfl, by omega⟩
  · rintro ⟨b, hbw, h300⟩
    refine ⟨b, ?_⟩
    rw [detectWindow_of_some df b (by rw [hs, hbw]), if_neg (by omega)]
  · intro b hbw
    constructor
    · rcases bestWindowPure_max df b hbw with ⟨l1, c, l2, hdec, hb2, hbefore, hafter⟩
      intro x hx
      rw [hdec] at hx
      rcases List.mem_append.mp hx with hx1 | hx2
      · exact le_of_lt (hbefore x hx1)
      · rcases List.mem_cons.mp hx2 with rfl | hx3
        · rw [hb2]
          exact le_refl _
        · exact hafter x hx3
    · intro h300
      rw [detectWindow_of_some df b (by rw [hs, hbw]), if_pos h300]
  · intro hnone
    exact detectWindow_of_none df (by rw [hs, hnone])

/-- Counterexample to C3 as stated: `gTwoRows` has a searched candidate
window of score 384 ≥ 300 (a perfect header pair at rows (0,1)), yet
detection does not accept it — the search crashes with the uncaught
`IndexError` of `df.iloc[2, ...]`, which is also not the
`LayoutNotDetectedError` the claim promises on failure. -/
theorem c3_threshold_counterexample :
    detectWindow gTwoRows = .error .indexError ∧
    ((0, 1), 0) ∈ searchedCandidates (ncolsOf gTwoRows) ∧
    scoreAt gTwoRows ((0, 1), 0) = 384 := by
  exact ⟨by rfl, by decide, by rfl⟩

/-- Witness for C3 (amended) at `gHeadersTop` (5 rows, perfect headers at
rows (0,1)): detection accepts. -/
theorem c3_threshold_witness : ∃ b, detectWindow gHeadersTop = .ok b :=
  (c3_threshold_amended gHeadersTop (by decide)).1.mpr
    ⟨⟨0, 1, 0, 384, 384⟩, by rfl, by decide⟩

/-- Claim C9 (amended): the search examines exactly the candidate
windows with a header-row pair among (0,1), (1,2), (2,3), (3,4) — the
last reaching into the 5th grid row — and start offsets 0 through
`min(20, max(1, ncols-384))` inclusive (up to 21 offsets, one past the
"first 20") whose 384-wide window fits; among equal best scores the
first-encountered window (lowest row pair, then lowest start) is kept. -/
theorem c9_candidates_amended :
    (∀ (ncols : ℕ) (c : (ℕ × ℕ) × ℕ),
      c ∈ searchedCandidates ncols ↔
        (c.1 ∈ row_pairs ∧ c.2 ≤ searchBound ncols ∧ c.2 + 384 ≤ ncols))
    ∧ (∀ (df : Grid) (b : BestW), 5 ≤ df.length → bestWindowPure df = some b →
        searchBest df = .ok (some b) ∧
        ∃ l1 c l2, searchedCandidates (ncolsOf df) = l1 ++ c :: l2 ∧
          b = mkBestW c (scoreAt df c) ∧
          (∀ c1 ∈ l1, scoreAt df c1 < b.score) ∧
          (∀ c2 ∈ l2, scoreAt df c2 ≤ b.score)) := by
  constructor
  · intro ncols c
    rw [searchedCandidates_mem_parts, mem_candidateStarts]
  · intro df b h5 hbw
    refine ⟨by rw [searchBest_eq_pure df h5, hbw], bestWindowPure_max df b hbw⟩

/-- Counterexample to C9 as stated: with 420 columns the code scores the
window with start offset 20 (the 21st offset) and the row pair (3,4)
(reaching the 5th row), both outside the bounds the claim asserts
(`claimedCandidates`). -/
theorem c9_candidates_counterexample :
    (((3, 4), 20) ∈ searchedCandidates 420 ∧ ((3, 4), 20) ∉ claimedCandidates 420) ∧
    (((0, 1), 20) ∈ searchedCandidates 420 ∧ ((0, 1), 20) ∉ claimedCandidates 420) := by
  exact ⟨⟨by decide, by decide⟩, ⟨by decide, by decide⟩⟩

/-- Witness for C9 (amended) at `gHeadersTop`: the selected window is a
first-encountered maximum of the searched candidates. -/
theorem c9_candidates_witness :
    searchBest gHeadersTop = .ok (some ⟨0, 1, 0, 384, 384⟩) ∧
    ∃ l1 c l2, searchedCandidates (ncolsOf gHeadersTop) = l1 ++ c :: l2 ∧
      (⟨0, 1, 0, 384, 384⟩ : BestW) = mkBestW c (scoreAt gHeadersTop c) ∧
      (∀ c1 ∈ l1, scoreAt gHeadersTop c1 < (384 : ℤ)) ∧
      (∀ c2 ∈ l2, scoreAt gHeadersTop c2 ≤ (384 : ℤ)) :=
  c9_candidates_amended.2 gHeadersTop ⟨0, 1, 0, 384, 384⟩ (by decide) (by rfl)

theorem lookup_map_self_not_mem {α : Type} (g : String → α) (L : List String) (w : String)
    (hw : w ∉ L) : (L.map (fun v => (v, g v))).lookup w = none := by
  induction L with
  | nil => rfl
  | cons a as ih =>
    simp only [List.map_cons, List.lookup]
    have hwa : w ≠ a := fun h => hw (h ▸ List.mem_cons_self _ _)
    rw [show (w == a) = false from beq_eq_false_iff_ne.mpr hwa]
    exact ih (fun h => hw (List.mem_cons_of_mem _ h))

theorem completeWells_lookup_not_mem {α : Type} (missing : α) (cols : List (String × α))
    (w : String) (hw : w ∉ all_well_ids_384) :
    (completeWells missing cols).lookup w = none := by
  unfold completeWells
  exact lookup_map_self_not_mem _ _ _ hw

theorem load_auto_of_detect_ok (df : Grid) (b : BestW) (h : detectWindow df = .ok b) :
    load_plate_matrix_auto df
      = match autoWellIds df b with
        | .error e => .error e
        | .ok ids =>
          match reindexDup (columnsOf ids (dataBlock df b)) with
          | true => .error .duplicateLabels
          | false =>
            .ok (completeWells (List.replicate (dataBlock df b).length (none : Cell))
              (columnsOf ids (dataBlock df b)), b) := by
  unfold load_plate_matrix_auto
  rw [h]

theorem autoWellIds_eq_of (df : Grid) (b : BestW) (rs cs : List ℤ)
    (h1 : toIntHeader (sliceRow df b.r1 b.start b.stop) = .ok rs)
    (h2 : toIntHeader (sliceRow df b.r2 b.start b.stop) = .ok cs) :
    autoWellIds df b
      = match (shiftIfZero rs cs).1.mapM (fun r => pyGet asciiUppercase (r - 1)) with
        | none => .error .letterIndexError
        | some letters =>
            .ok ((letters.zip (shiftIfZero rs cs).2).map
              (fun lc => normalize_well_id (String.mk [lc.1] ++ toString lc.2))) := by
  unfold autoWellIds
  rw [h1, h2]

theorem autoWellIds_gShiftedCols : autoWellIds gShiftedCols bShift = .ok idsShift := by
  rw [autoWellIds_eq_of gShiftedCols bShift rowNums0Shift colNums0Shift (by rfl) (by rfl)]
  rw [show shiftIfZero rowNums0Shift colNums0Shift = (rowNumsShift, colNumsShift) from by rfl]
  dsimp only
  rw [show rowNumsShift.mapM (fun r => pyGet asciiUppercase (r - 1)) = some lettersShift from by rfl]
  dsimp only
  rw [show (lettersShift.zip colNumsShift).map
      (fun lc => normalize_well_id (String.mk [lc.1] ++ toString lc.2)) = idsShift from by rfl]

theorem autoWellIds_gDup : autoWellIds gDup bShift = .ok idsDup := by
  rw [autoWellIds_eq_of gDup bShift rowNums0Shift colNums0Dup (by rfl) (by rfl)]
  rw [show shiftIfZero rowNums0Shift colNums0Dup = (rowNumsShift, colNumsDup) from by rfl]
  dsimp only
  rw [show rowNumsShift.mapM (fun r => pyGet asciiUppercase (r - 1)) = some lettersShift from by rfl]
  dsimp only
  rw [show (lettersShift.zip colNumsDup).map
      (fun lc => normalize_well_id (String.mk [lc.1] ++ toString lc.2)) = idsDup from by rfl]

theorem hasDupAux_eq_false (l : List String) :
    ∀ seen, hasDupAux l seen = false ↔ (l.Nodup ∧ ∀ a ∈ l, a ∉ seen) := by
  induction l with
  | nil =>
    intro seen
    simp [hasDupAux]
  | cons a as ih =>
    intro seen
    unfold hasDupAux
    cases hc : seen.contains a with
    | true =>
      dsimp only
      constructor
      · intro h
        cases h
      · rintro ⟨_, hall⟩
        exact absurd (List.mem_of_elem_eq_true hc) (hall a (List.mem_cons_self _ _))
    | false =>
      dsimp only
      rw [ih (a :: seen)]
      have hanotseen : a ∉ seen := fun hm => by
        have hce : seen.contains a = true := List.elem_eq_true_of_mem hm
        rw [hce] at hc
        cases hc
      constructor
      · rintro ⟨hnd, hall⟩
        have hanotas : a ∉ as := fun hm => hall a hm (List.mem_cons_self a seen)
        refine ⟨List.nodup_cons.mpr ⟨hanotas, hnd⟩, ?_⟩
        intro x hx
        rcases List.mem_cons.mp hx with rfl | hx2
        · exact hanotseen
        · exact fun hm => hall x hx2 (List.mem_cons_of_mem a hm)
      · rintro ⟨hnd, hall⟩
        obtain ⟨h1, h2⟩ := List.nodup_cons.mp hnd
        refine ⟨h2, ?_⟩
        intro x hx hxin
        rcases List.mem_cons.mp hxin with rfl | hx2
        · exact h1 hx
        · exact hall x (List.mem_cons_of_mem a hx) hx2

theorem hasDup_eq_false (l : List String) : hasDup l = false ↔ l.Nodup := by
  unfold hasDup
  rw [hasDupAux_eq_false l []]
  simp

theorem lookup_eq_none_iff {β : Type} (l : List (String × β)) (k : String) :
    l.lookup k = none ↔ k ∉ l.map Prod.fst := by
  induction l with
  | nil => simp [List.lookup]
  | cons a as ih =>
    simp only [List.lookup, List.map_cons, List.mem_cons]
    by_cases hk : k = a.1
    · rw [show (k == a.1) = true from beq_iff_eq.mpr hk]
      simp [hk]
    · rw [show (k == a.1) = false from beq_eq_false_iff_ne.mpr hk]
      simp [hk, ih]

theorem columnsOf_keys (ids : List String) (rows : List (List Cell)) :
    (columnsOf ids rows).map Prod.fst = ids := by
  unfold columnsOf
  rw [List.map_map]
  exact List.enum_map_snd ids

theorem reindexDup_columnsOf (ids : List String) (rows : List (List Cell)) :
    reindexDup (columnsOf ids rows)
      = hasDup (ids ++ all_well_ids_384.filter (fun w => !(ids.contains w))) := by
  unfold reindexDup
  rw [columnsOf_keys]
  have hfix : ∀ w ∈ all_well_ids_384,
      ((columnsOf ids rows).lookup w).isNone = !(ids.contains w) := by
    intro w _
    by_cases hm : w ∈ ids
    · have hcontains : ids.contains w = true := List.elem_eq_true_of_mem hm
      rw [hcontains]
      cases hl : (columnsOf ids rows).lookup w with
      | none =>
        have h2 := (lookup_eq_none_iff (columnsOf ids rows) w).mp hl
        rw [columnsOf_keys] at h2
        exact absurd hm h2
      | some v => rfl
    · have hcontains : ids.contains w = false := by
        cases hc : ids.contains w with
        | false => rfl
        | true => exact absurd (List.mem_of_elem_eq_true hc) hm
      rw [hcontains]
      rw [(lookup_eq_none_iff (columnsOf ids rows) w).mpr (by rw [columnsOf_keys]; exact hm)]
      rfl
  rw [List.filter_congr hfix]

theorem nodup_letter_product (rs : List Char) (hrs : rs.Nodup) (ss : List String)
    (hss : ss.Nodup) :
    (rs.flatMap (fun r => ss.map (fun s => String.mk [r] ++ s))).Nodup := by
  induction rs with
  | nil => simp
  | cons r rest ih =>
    rw [List.flatMap_cons]
    rw [List.nodup_append]
    obtain ⟨hr1, hr2⟩ := List.nodup_cons.mp hrs
    refine ⟨?_, ih hr2, ?_⟩
    · refine hss.map_on ?_
      intro x _ y _ hxy
      have hd : x.data = y.data := by
        have h0 := congrArg String.data hxy
        rw [String.data_append, String.data_append] at h0
        simpa using h0
      cases x
      cases y
      exact congrArg String.mk hd
    · intro z hz1 hz2
      rcases List.mem_map.mp hz1 with ⟨s1, hs1, rfl⟩
      rcases List.mem_flatMap.mp hz2 with ⟨r2, hr2mem, hz3⟩
      rcases List.mem_map.mp hz3 with ⟨s2, hs2, heq⟩
      have h0 := congrArg String.data heq
      rw [String.data_append, String.data_append] at h0
      simp only [List.cons_append, List.nil_append] at h0
      injection h0 with hhead _
      exact hr1 (hhead ▸ hr2mem)

theorem nodup_all384 : all_well_ids_384.Nodup := by
  have h : all_well_ids_384
      = lettersAP.flatMap (fun r => ((List.range' 1 24).map (fun c => toString c)).map
          (fun s => String.mk [r] ++ s)) := by
    simp only [List.map_map]
    rfl
  rw [h]
  exact nodup_letter_product lettersAP (by decide) _ (by decide)

theorem nodup_idsShift : idsShift.Nodup := by
  have h : idsShift
      = lettersAP.flatMap (fun r => ((List.range' 2 24).map (fun c => toString c)).map
          (fun s => String.mk [r] ++ s)) := by
    simp only [List.map_map]
    rfl
  rw [h]
  exact nodup_letter_product lettersAP (by decide) _ (by decide)

theorem reindexDup_idsShift_false :
    reindexDup (columnsOf idsShift (dataBlock gShiftedCols bShift)) = false := by
  rw [reindexDup_columnsOf]
  rw [hasDup_eq_false]
  rw [List.nodup_append]
  refine ⟨nodup_idsShift, nodup_all384.filter _, ?_⟩
  intro z hz1 hz2
  have h2 := (List.mem_filter.mp hz2).2
  have h3 : idsShift.contains z = true := List.elem_eq_true_of_mem hz1
  rw [h3] at h2
  exact absurd h2 (by decide)

/-- Claim C10 (amended): for every accepted detection window whose label
construction succeeds, the behaviour of the final fill-and-reindex
splits on duplicate labels.  When the constructed labels carry no
repeat, the output holds exactly the canonical 384 columns and a
constructed label outside the canonical universe (e.g. a column number
shifted to 25) is silently dropped: its values are absent and no error
is raised.  But when the constructed labels contain a repeat — which
window scoring does not preclude — the reindex raises pandas'
duplicate-label `ValueError` instead of silently dropping anything. -/
theorem c10_silent_drop (df : Grid) (b : BestW) (ids : List String)
    (hdet : detectWindow df = .ok b) (hids : autoWellIds df b = .ok ids) :
    (reindexDup (columnsOf ids (dataBlock df b)) = false →
      load_plate_matrix_auto df
        = .ok (completeWells (List.replicate (dataBlock df b).length (none : Cell))
            (columnsOf ids (dataBlock df b)), b) ∧
      (completeWells (List.replicate (dataBlock df b).length (none : Cell))
          (columnsOf ids (dataBlock df b))).map Prod.fst = all_well_ids_384 ∧
      (∀ w ∈ ids, w ∉ all_well_ids_384 →
        (completeWells (List.replicate (dataBlock df b).length (none : Cell))
            (columnsOf ids (dataBlock df b))).lookup w = none)) ∧
    (reindexDup (columnsOf ids (dataBlock df b)) = true →
      load_plate_matrix_auto df = .error .duplicateLabels) := by
  constructor
  · intro hnodup
    refine ⟨?_, completeWells_keys _ _, ?_⟩
    · rw [load_auto_of_detect_ok df b hdet, hids]
      dsimp only
      rw [hnodup]
    · intro w _ hw
      exact completeWells_lookup_not_mem _ _ w hw
  · intro hdup
    rw [load_auto_of_detect_ok df b hdet, hids]
    dsimp only
    rw [hdup]

/-- Counterexample to C10 as stated: the grid `gDup` is accepted (score
360) and its constructed labels contain both the repeated well A2
(positions 0 and 1) and the out-of-universe well B25 (whose raw header
cells scored), yet nothing is silently dropped — the load fails with
the duplicate-label `ValueError` of the reindex. -/
theorem c10_silent_drop_counterexample :
    detectWindow gDup = .ok bShift ∧
    autoWellIds gDup bShift = .ok idsDup ∧
    ("B25" : String) ∈ idsDup ∧ ("B25" : String) ∉ all_well_ids_384 ∧
    load_plate_matrix_auto gDup = .error .duplicateLabels := by
  refine ⟨by rfl, autoWellIds_gDup, by decide, by decide, ?_⟩
  rw [load_auto_of_detect_ok gDup bShift (by rfl), autoWellIds_gDup]
  dsimp only
  rw [show reindexDup (columnsOf idsDup (dataBlock gDup bShift)) = true from by rfl]

/-- Witness for C10 (amended) at `gShiftedCols`: the zero shift produces
the labels A25..P25 among 384 pairwise-distinct constructed labels;
"A25" is constructed, lies outside the canonical universe, and is
absent from the accepted (no-error) output. -/
theorem c10_silent_drop_witness :
    ("A25" : String) ∈ idsShift ∧ ("A25" : String) ∉ all_well_ids_384 ∧
    load_plate_matrix_auto gShiftedCols
      = .ok (completeWells (List.replicate (dataBlock gShiftedCols bShift).length (none : Cell))
          (columnsOf idsShift (dataBlock gShiftedCols bShift)), bShift) ∧
    (completeWells (List.replicate (dataBlock gShiftedCols bShift).length (none : Cell))
        (columnsOf idsShift (dataBlock gShiftedCols bShift))).lookup "A25" = none := by
  have h := (c10_silent_drop gShiftedCols bShift idsShift (by rfl) autoWellIds_gShiftedCols).1
    reindexDup_idsShift_false
  exact ⟨by decide, by decide, h.1, h.2.2 "A25" (by decide) (by decide)⟩

theorem mem_dedupFirstAux {α : Type} [DecidableEq α] (l : List α) :
    ∀ (seen : List α) (x : α), x ∈ dedupFirstAux seen l ↔ (x ∈ l ∧ x ∉ seen) := by
  induction l with
  | nil =>
    intro seen x
    simp [dedupFirstAux]
  | cons a as ih =>
    intro seen x
    unfold dedupFirstAux
    by_cases ha : a ∈ seen
    · rw [if_pos ha, ih]
      constructor
      · rintro ⟨h1, h2⟩
        exact ⟨List.mem_cons_of_mem _ h1, h2⟩
      · rintro ⟨h1, h2⟩
        rcases List.mem_cons.mp h1 with rfl | h3
        · exact absurd ha h2
        · exact ⟨h3, h2⟩
    · rw [if_neg ha]
      constructor
      · intro h
        rcases List.mem_cons.mp h with rfl | h3
        · exact ⟨List.mem_cons_self _ _, ha⟩
        · have h4 := (ih _ x).mp h3
          exact ⟨List.mem_cons_of_mem _ h4.1,
            fun hx => h4.2 (List.mem_cons_of_mem _ hx)⟩
      · rintro ⟨h1, h2⟩
        rcases List.mem_cons.mp h1 with rfl | h3
        · exact List.mem_cons_self _ _
        · by_cases hxa : x = a
          · subst hxa
            exact List.mem_cons_self _ _
          · exact List.mem_cons_of_mem _ ((ih _ x).mpr
              ⟨h3, fun hx => (List.mem_cons.mp hx).elim hxa h2⟩)

theorem mem_dedupFirst {α : Type} [DecidableEq α] (l : List α) (x : α) :
    x ∈ dedupFirst l ↔ x ∈ l := by
  unfold dedupFirst
  rw [mem_dedupFirstAux]
  simp

theorem nodup_dedupFirstAux {α : Type} [DecidableEq α] (l : List α) :
    ∀ seen, (dedupFirstAux seen l).Nodup := by
  induction l with
  | nil =>
    intro seen
    exact List.nodup_nil
  | cons a as ih =>
    intro seen
    unfold dedupFirstAux
    by_cases ha : a ∈ seen
    · rw [if_pos ha]
      exact ih seen
    · rw [if_neg ha]
      refine List.nodup_cons.mpr ⟨?_, ih (a :: seen)⟩
      intro hmem
      exact ((mem_dedupFirstAux as (a :: seen) a).mp hmem).2 (List.mem_cons_self _ _)

theorem nodup_condKeys (pm : List PMRow) : (condKeys pm).Nodup :=
  nodup_dedupFirstAux _ _

theorem condTempRecords_cond (O : NparcOracles) (vt : String) (pm : List PMRow)
    (cols : WideCols) (temps : List ℚ) (wells : List String) (cond : String) :
    ∀ r ∈ condTempRecords O vt pm cols temps wells cond, r.condition = cond := by
  intro r hr
  unfold condTempRecords at hr
  rw [List.mem_filterMap] at hr
  rcases hr with ⟨titC, _, hf⟩
  split at hf
  · split at hf
    · injection hf with hf2
      rw [← hf2]
    · cases hf
  · cases hf

theorem filter_all_true {β : Type} (p : β → Bool) (l : List β) (h : ∀ x ∈ l, p x = true) :
    l.filter p = l := by
  induction l with
  | nil => rfl
  | cons a as ih =>
    rw [List.filter_cons_of_pos (h a (List.mem_cons_self _ _))]
    rw [ih (fun x hx => h x (List.mem_cons_of_mem _ hx))]

theorem filter_all_false {β : Type} (p : β → Bool) (l : List β) (h : ∀ x ∈ l, p x = false) :
    l.filter p = [] := by
  induction l with
  | nil => rfl
  | cons a as ih =>
    rw [List.filter_cons_of_neg (by rw [h a (List.mem_cons_self _ _)]; exact Bool.false_ne_true)]
    exact ih (fun x hx => h x (List.mem_cons_of_mem _ hx))

theorem filter_flatMap_local {α β : Type} (l : List α) (f : α → List β) (p : β → Bool) :
    (l.flatMap f).filter p = l.flatMap (fun x => (f x).filter p) := by
  induction l with
  | nil => rfl
  | cons a as ih =>
    rw [List.flatMap_cons, List.flatMap_cons, List.filter_append, ih]

theorem flatMap_map_local {α γ β : Type} (l : List α) (f : α → γ) (g : γ → List β) :
    (l.map f).flatMap g = l.flatMap (fun x => g (f x)) := by
  induction l with
  | nil => rfl
  | cons a as ih =>
    rw [List.map_cons, List.flatMap_cons, List.flatMap_cons, ih]

theorem flatMap_eq_single {β : Type} (keys : List String) (hnd : keys.Nodup) (c : String)
    (F : String → List β) (h : ∀ k ∈ keys, k ≠ c → F k = []) :
    keys.flatMap F = if c ∈ keys then F c else [] := by
  induction keys with
  | nil => rfl
  | cons a as ih =>
    rcases List.nodup_cons.mp hnd with ⟨hna, hnd2⟩
    rw [List.flatMap_cons]
    by_cases hac : a = c
    · subst hac
      have hz : as.flatMap F = [] := by
        have hcg : as.flatMap F = as.flatMap (fun _ => ([] : List β)) :=
          List.flatMap_congr (fun k hk => h k (List.mem_cons_of_mem _ hk)
            (fun hkc => hna (hkc ▸ hk)))
        rw [hcg]
        simp
      rw [hz, List.append_nil, if_pos (List.mem_cons_self _ _)]
    · rw [h a (List.mem_cons_self _ _) hac, List.nil_append]
      rw [ih hnd2 (fun k hk hkc => h k (List.mem_cons_of_mem _ hk) hkc)]
      by_cases hc : c ∈ as
      · rw [if_pos hc, if_pos (List.mem_cons_of_mem _ hc)]
      · rw [if_neg hc, if_neg (fun hmem => (List.mem_cons.mp hmem).elim (fun h2 => hac h2.symm) hc)]

/-- Claim C2: for every value_type matrix, platemap and oracles, the
NPARC engine emits a ConditionSummary row for a condition exactly when
it is a (non-empty-label) condition group with at least 3 distinct
rounded concentrations whose per-temperature loop produced at least 5
paired finite RSS values; an emitted row's U statistic and p-value are
the Mann-Whitney `alternative="less"` call on (RSS_alt vector, RSS_null
vector); and the PerTemperatureFit rows of a concentration-eligible
condition are kept in the long table whether or not the ≥5 gate
passes. -/
theorem c2_summary_emission (O : NparcOracles) (vt : String) (pm : List PMRow)
    (cols : WideCols) (temps : List ℚ) (c : String) :
    ((∃ s ∈ nparcSummaries O vt pm cols temps, s.condition = c) ↔
      (c ∈ condKeys pm ∧ eligibleConcW pm (wellsOf pm c) = true ∧
       5 ≤ (condTempRecords O vt pm cols temps (wellsOf pm c) c).length))
    ∧ (∀ s ∈ nparcSummaries O vt pm cols temps, s.condition = c →
        (s.u_stat, s.p_value)
          = mwuFields O
              ((condTempRecords O vt pm cols temps (wellsOf pm c) c).map RSSRow.rss_alt)
              ((condTempRecords O vt pm cols temps (wellsOf pm c) c).map RSSRow.rss_null))
    ∧ ((nparcRows O vt pm cols temps).filter (fun r => r.condition == c)
        = if c ∈ condKeys pm ∧ eligibleConcW pm (wellsOf pm c) = true
          then condTempRecords O vt pm cols temps (wellsOf pm c) c else []) := by
  refine ⟨⟨?_, ?_⟩, ?_, ?_⟩
  · rintro ⟨s, hs, hcond⟩
    unfold nparcSummaries conditionGroups at hs
    rw [List.mem_filterMap] at hs
    rcases hs with ⟨cw, hcw, hf⟩
    rw [List.mem_map] at hcw
    rcases hcw with ⟨k, hk, rfl⟩
    dsimp only at hf
    split at hf
    · split at hf
      · injection hf with hf2
        have hkc : k = c := by rw [← hcond, ← hf2]; rfl
        subst hkc
        exact ⟨hk, by assumption, by assumption⟩
      · cases hf
    · cases hf
  · rintro ⟨hk, he, h5⟩
    refine ⟨mkSummary O vt c (condTempRecords O vt pm cols temps (wellsOf pm c) c), ?_, rfl⟩
    unfold nparcSummaries conditionGroups
    rw [List.mem_filterMap]
    refine ⟨(c, wellsOf pm c), List.mem_map.mpr ⟨c, hk, rfl⟩, ?_⟩
    dsimp only
    rw [if_pos he, if_pos h5]
  · intro s hs hcond
    unfold nparcSummaries conditionGroups at hs
    rw [List.mem_filterMap] at hs
    rcases hs with ⟨cw, hcw, hf⟩
    rw [List.mem_map] at hcw
    rcases hcw with ⟨k, hk, rfl⟩
    dsimp only at hf
    split at hf
    · split at hf
      · injection hf with hf2
        have hkc : k = c := by rw [← hcond, ← hf2]; rfl
        subst hkc
        rw [← hf2]
        rfl
      · cases hf
    · cases hf
  · unfold nparcRows conditionGroups
    rw [filter_flatMap_local, flatMap_map_local]
    refine Eq.trans (flatMap_eq_single (condKeys pm) (nodup_condKeys pm) c _ ?_) ?_
    · intro k hk hkc
      dsimp only
      split
      · exact filter_all_false _ _ (fun r hr => by
          rw [condTempRecords_cond O vt pm cols temps (wellsOf pm k) k r hr]
          exact beq_eq_false_iff_ne.mpr hkc)
      · rfl
    · dsimp only
      by_cases hc : c ∈ condKeys pm
      · rw [if_pos hc]
        by_cases he : eligibleConcW pm (wellsOf pm c) = true
        · rw [if_pos he, if_pos ⟨hc, he⟩]
          exact filter_all_true _ _ (fun r hr => by
            rw [condTempRecords_cond O vt pm cols temps (wellsOf pm c) c r hr]
            simp)
        · rw [if_neg he, if_neg (fun h => he h.2)]
          rfl
      · rw [if_neg hc, if_neg (fun h => hc h.1)]

/-- Witness for C2: a 3-well condition "X" at 3 distinct concentrations
with 5 defined temperatures and converging oracles is emitted. -/
theorem c2_summary_emission_witness :
    ∃ s ∈ nparcSummaries oraclesX "BaselineCorrected" pmX colsX tempsX,
      s.condition = "X" :=
  (c2_summary_emission oraclesX "BaselineCorrected" pmX colsX tempsX "X").1.mpr
    ⟨by decide, by with_unfolding_all decide, by with_unfolding_all decide⟩

theorem mem_insertLe {α : Type} (le : α → α → Bool) (a : α) (l : List α) (x : α) :
    x ∈ insertLe le a l ↔ x = a ∨ x ∈ l := by
  induction l with
  | nil => simp [insertLe]
  | cons b bs ih =>
    unfold insertLe
    by_cases hba : le b a = true
    · rw [if_pos hba]
      simp only [List.mem_cons, ih]
      tauto
    · rw [if_neg hba]
      simp only [List.mem_cons]

theorem mem_sortLe_aux {α : Type} (le : α → α → Bool) :
    ∀ (l acc : List α) (x : α),
      x ∈ l.foldl (fun acc a => insertLe le a acc) acc ↔ x ∈ l ∨ x ∈ acc := by
  intro l
  induction l with
  | nil => simp
  | cons a as ih =>
    intro acc x
    rw [List.foldl_cons, ih, mem_insertLe]
    simp only [List.mem_cons]
    tauto

theorem mem_sortLe {α : Type} (le : α → α → Bool) (l : List α) (x : α) :
    x ∈ sortLe le l ↔ x ∈ l := by
  unfold sortLe
  rw [mem_sortLe_aux]
  simp

theorem pairwise_insertLe {α : Type} (le : α → α → Bool)
    (htot : ∀ a b, le a b = true ∨ le b a = true)
    (htrans : ∀ a b c, le a b = true → le b c = true → le a c = true)
    (a : α) (l : List α) (hl : l.Pairwise (fun x y => le x y = true)) :
    (insertLe le a l).Pairwise (fun x y => le x y = true) := by
  induction l with
  | nil => simp [insertLe]
  | cons b bs ih =>
    unfold insertLe
    rcases List.pairwise_cons.mp hl with ⟨hb, hbs⟩
    by_cases hba : le b a = true
    · rw [if_pos hba]
      rw [List.pairwise_cons]
      refine ⟨?_, ih hbs⟩
      intro x hx
      rcases (mem_insertLe le a bs x).mp hx with rfl | hx2
      · exact hba
      · exact hb x hx2
    · rw [if_neg hba]
      have hab : le a b = true := (htot a b).resolve_right hba
      rw [List.pairwise_cons]
      refine ⟨?_, hl⟩
      intro x hx
      rcases List.mem_cons.mp hx with rfl | hx2
      · exact hab
      · exact htrans a b x hab (hb x hx2)

theorem pairwise_sortLe_aux {α : Type} (le : α → α → Bool)
    (htot : ∀ a b, le a b = true ∨ le b a = true)
    (htrans : ∀ a b c, le a b = true → le b c = true → le a c = true) :
    ∀ (l acc : List α), acc.Pairwise (fun x y => le x y = true) →
      (l.foldl (fun acc a => insertLe le a acc) acc).Pairwise (fun x y => le x y = true) := by
  intro l
  induction l with
  | nil => exact fun acc h => h
  | cons a as ih =>
    intro acc hacc
    rw [List.foldl_cons]
    exact ih _ (pairwise_insertLe le htot htrans a acc hacc)

theorem pairwise_sortLe {α : Type} (le : α → α → Bool)
    (htot : ∀ a b, le a b = true ∨ le b a = true)
    (htrans : ∀ a b c, le a b = true → le b c = true → le a c = true) (l : List α) :
    (sortLe le l).Pairwise (fun x y => le x y = true) :=
  pairwise_sortLe_aux le htot htrans l [] List.Pairwise.nil

theorem keyLe_total (a b : Option ℚ) : keyLe a b = true ∨ keyLe b a = true := by
  cases a with
  | none =>
    cases b with
    | none => exact Or.inl rfl
    | some q => exact Or.inr rfl
  | some p =>
    cases b with
    | none => exact Or.inl rfl
    | some q =>
      rcases le_total p q with h | h
      · exact Or.inl (by simpa [keyLe] using h)
      · exact Or.inr (by simpa [keyLe] using h)

theorem keyLe_trans (a b c : Option ℚ) (h1 : keyLe a b = true) (h2 : keyLe b c = true) :
    keyLe a c = true := by
  cases a with
  | none =>
    cases b with
    | none =>
      cases c with
      | none => rfl
      | some r => exact h2
    | some q => exact absurd h1 (by simp [keyLe])
  | some p =>
    cases c with
    | none => rfl
    | some r =>
      cases b with
      | none => exact absurd h2 (by simp [keyLe])
      | some q =>
        simp only [keyLe, decide_eq_true_eq] at h1 h2 ⊢
        exact le_trans h1 h2

theorem keyLe_none_left (b : Option ℚ) (h : keyLe none b = true) : b = none := by
  cases b with
  | none => rfl
  | some q => exact absurd h (by simp [keyLe])

theorem pairwise_rel_getLast {α : Type} (R : α → α → Prop) :
    ∀ (l : List α), l.Pairwise R → ∀ x ∈ l, ∀ b, l.getLast? = some b → x = b ∨ R x b := by
  intro l
  induction l with
  | nil => intro _ x hx; cases hx
  | cons a as ih =>
    intro hpw x hx b hb
    rcases List.pairwise_cons.mp hpw with ⟨ha, has⟩
    cases as with
    | nil =>
      rcases List.mem_cons.mp hx with rfl | hx2
      · exact Or.inl (by simpa using hb)
      · cases hx2
    | cons a2 as2 =>
      rw [List.getLast?_cons_cons] at hb
      rcases List.mem_cons.mp hx with rfl | hx2
      · right
        have hbmem : b ∈ a2 :: as2 := by
          rcases List.mem_getLast?_eq_getLast (show b ∈ (a2 :: as2).getLast? from hb) with ⟨hne, hbl⟩
          rw [hbl]
          exact List.getLast_mem hne
        exact ha b hbmem
      · exact ih has x hx2 b hb

theorem getLast?_map_local {α β : Type} (f : α → β) :
    ∀ l : List α, (l.map f).getLast? = (l.getLast?).map f := by
  intro l
  induction l with
  | nil => rfl
  | cons a as ih =>
    cases as with
    | nil => rfl
    | cons a2 as2 =>
      rw [List.map_cons, List.map_cons, List.getLast?_cons_cons, List.getLast?_cons_cons]
      rw [← List.map_cons]
      exact ih

theorem getLast?_enumFrom {α : Type} :
    ∀ (l : List α) (n : ℕ) (x : α), l.getLast? = some x →
      ∃ k, (List.enumFrom n l).getLast? = some (k, x) := by
  intro l
  induction l with
  | nil => intro n x h; cases h
  | cons a as ih =>
    intro n x h
    cases as with
    | nil =>
      refine ⟨n, ?_⟩
      have hax : a = x := by simpa using h
      rw [hax]
      rfl
    | cons a2 as2 =>
      rw [List.getLast?_cons_cons] at h
      rcases ih (n + 1) x h with ⟨k, hk⟩
      refine ⟨k, ?_⟩
      rw [show List.enumFrom n (a :: a2 :: as2) = (n, a) :: List.enumFrom (n + 1) (a2 :: as2) from rfl]
      rw [show List.enumFrom (n + 1) (a2 :: as2) = (n + 1, a2) :: List.enumFrom (n + 2) as2 from rfl] at hk ⊢
      rw [List.getLast?_cons_cons]
      exact hk

theorem minNan_none_left (x : Option ℚ) : minNan none x = none := by
  cases x with
  | none => rfl
  | some q => rfl

theorem cumMin_none_all (l : List (Option ℚ)) :
    ∀ v ∈ cumMin none l, v = none := by
  induction l with
  | nil => intro v hv; cases hv
  | cons x xs ih =>
    intro v hv
    unfold cumMin at hv
    rw [minNan_none_left] at hv
    rcases List.mem_cons.mp hv with rfl | hv2
    · rfl
    · exact ih v hv2

theorem foldl_set_values (pairs : List (ℕ × Option ℚ)) :
    ∀ acc : List (Option ℚ), (∀ v ∈ acc, v = none) → (∀ p ∈ pairs, p.2 = none) →
      (∀ v ∈ pairs.foldl (fun a iv => a.set iv.1 iv.2) acc, v = none) ∧
      (pairs.foldl (fun a iv => a.set iv.1 iv.2) acc).length = acc.length := by
  induction pairs with
  | nil => exact fun acc h1 _ => ⟨h1, rfl⟩
  | cons p ps ih =>
    intro acc h1 h2
    rw [List.foldl_cons]
    have hp2 : p.2 = none := h2 p (List.mem_cons_self _ _)
    have haccset : ∀ v ∈ acc.set p.1 p.2, v = none := by
      intro v hv
      rcases List.mem_or_eq_of_mem_set hv with hv2 | rfl
      · exact h1 v hv2
      · exact hp2
    have hrec := ih (acc.set p.1 p.2) haccset (fun q hq => h2 q (List.mem_cons_of_mem _ hq))
    exact ⟨hrec.1, by rw [hrec.2, List.length_set]⟩

theorem zip_replicate_local {β γ : Type} (a : γ) :
    ∀ l : List β, l.zip (List.replicate l.length a) = l.map (fun x => (x, a)) := by
  intro l
  induction l with
  | nil => rfl
  | cons x xs ih =>
    rw [show List.replicate (x :: xs).length a = a :: List.replicate xs.length a from rfl]
    rw [List.zip_cons_cons, ih, List.map_cons]

theorem foldl_set_length (pairs : List (ℕ × Option ℚ)) :
    ∀ acc : List (Option ℚ),
      (pairs.foldl (fun a iv => a.set iv.1 iv.2) acc).length = acc.length := by
  induction pairs with
  | nil => exact fun _ => rfl
  | cons p ps ih =>
    intro acc
    rw [List.foldl_cons, ih, List.length_set]

theorem bhGroup_length (pv : List (Option ℚ)) : (bhGroup pv).length = pv.length := by
  unfold bhGroup scatterBy
  rw [foldl_set_length, List.length_replicate]

theorem bhGroup_all_none_of_none (pv : List (Option ℚ)) (hn : none ∈ pv) :
    bhGroup pv = List.replicate pv.length none := by
  rcases List.mem_iff_get.mp hn with ⟨⟨i, hi⟩, hgeti⟩
  have hmem : i ∈ argsortNanLast pv := by
    unfold argsortNanLast
    rw [mem_sortLe]
    exact List.mem_range.mpr hi
  have hkeyi : (pv.get? i).getD none = none := by
    rw [List.get?_eq_get hi, hgeti]
    rfl
  obtain ⟨j, hj⟩ : ∃ j, (argsortNanLast pv).getLast? = some j := by
    cases hl : argsortNanLast pv with
    | nil =>
      rw [hl] at hmem
      cases hmem
    | cons a as =>
      refine ⟨(a :: as).getLast (List.cons_ne_nil a as), ?_⟩
      exact List.getLast?_eq_getLast _ _
  have hpw : (argsortNanLast pv).Pairwise
      (fun x y => keyLe ((pv.get? x).getD none) ((pv.get? y).getD none) = true) :=
    pairwise_sortLe (fun x y : ℕ => keyLe ((pv.get? x).getD none) ((pv.get? y).getD none))
      (fun a b => keyLe_total _ _) (fun a b c => keyLe_trans _ _ _)
      (List.range pv.length)
  have hkeyj : (pv.get? j).getD none = none := by
    rcases pairwise_rel_getLast _ _ hpw i hmem j hj with rfl | hrel
    · exact hkeyi
    · rw [hkeyi] at hrel
      exact keyLe_none_left _ hrel
  have hqlast : ((argsortNanLast pv).enum.map (fun ii =>
      ((pv.get? ii.2).getD none).map
        (fun p => p * (pv.length : ℚ) / ((ii.1 : ℚ) + 1)))).getLast? = some none := by
    rcases getLast?_enumFrom (argsortNanLast pv) 0 j hj with ⟨k, hk⟩
    rw [getLast?_map_local]
    rw [show (argsortNanLast pv).enum = List.enumFrom 0 (argsortNanLast pv) from rfl, hk]
    show some (((pv.get? j).getD none).map
      (fun p => p * (pv.length : ℚ) / ((k : ℚ) + 1))) = some none
    rw [hkeyj]
    rfl
  obtain ⟨rest, hrev⟩ : ∃ rest, ((argsortNanLast pv).enum.map (fun ii =>
      ((pv.get? ii.2).getD none).map
        (fun p => p * (pv.length : ℚ) / ((ii.1 : ℚ) + 1)))).reverse = none :: rest := by
    have hh : ((argsortNanLast pv).enum.map (fun ii =>
        ((pv.get? ii.2).getD none).map
          (fun p => p * (pv.length : ℚ) / ((ii.1 : ℚ) + 1)))).reverse.head? = some none := by
      rw [List.head?_reverse]
      exact hqlast
    cases hqr : ((argsortNanLast pv).enum.map (fun ii =>
        ((pv.get? ii.2).getD none).map
          (fun p => p * (pv.length : ℚ) / ((ii.1 : ℚ) + 1)))).reverse with
    | nil =>
      rw [hqr] at hh
      cases hh
    | cons h t =>
      rw [hqr] at hh
      injection hh with hh2
      exact ⟨t, by rw [hh2]⟩
  have hqmon : ∀ v ∈ (cumMinList (((argsortNanLast pv).enum.map (fun ii =>
      ((pv.get? ii.2).getD none).map
        (fun p => p * (pv.length : ℚ) / ((ii.1 : ℚ) + 1)))).reverse)).reverse, v = none := by
    intro v hv
    rw [List.mem_reverse] at hv
    rw [hrev] at hv
    unfold cumMinList at hv
    rcases List.mem_cons.mp hv with rfl | hv2
    · rfl
    · exact cumMin_none_all _ v hv2
  unfold bhGroup scatterBy
  refine List.eq_replicate_iff.mpr ⟨?_, ?_⟩
  · rw [foldl_set_length, List.length_replicate]
  · intro b hb
    exact (foldl_set_values _ (List.replicate pv.length none)
      (fun v hv => List.eq_of_mem_replicate hv)
      (fun p hp => hqmon p.2 (List.of_mem_zip hp).2)).1 b hb

theorem bhGroup_nil : bhGroup [] = [] := rfl

theorem correctSummaries_filter (rows : List BHRow) (vt : String) :
    (correctSummaries rows).filter (fun rq => rq.1.value_type == vt)
      = (rows.filter (fun r => r.value_type == vt)).zip
          (bhGroup ((rows.filter (fun r => r.value_type == vt)).map BHRow.p_value)) := by
  unfold correctSummaries
  by_cases hguard : (!rows.isEmpty && rows.any (fun r => r.p_value.isSome)) = true
  · rw [if_pos hguard]
    rw [filter_flatMap_local]
    refine Eq.trans (flatMap_eq_single (dedupFirst (rows.map BHRow.value_type))
      (nodup_dedupFirstAux _ _) vt _ ?_) ?_
    · intro k hk hkvt
      dsimp only
      refine filter_all_false _ _ ?_
      intro rq hrq
      have h1 : rq.1 ∈ rows.filter (fun r => r.value_type == k) := (List.of_mem_zip hrq).1
      have h2 : rq.1.value_type = k := beq_iff_eq.mp (List.mem_filter.mp h1).2
      rw [h2]
      exact beq_eq_false_iff_ne.mpr hkvt
    · dsimp only
      by_cases hvt : vt ∈ dedupFirst (rows.map BHRow.value_type)
      · rw [if_pos hvt]
        refine filter_all_true _ _ ?_
        intro rq hrq
        exact (List.mem_filter.mp (List.of_mem_zip hrq).1).2
      · rw [if_neg hvt]
        have hsub : rows.filter (fun r => r.value_type == vt) = [] := by
          refine filter_all_false _ _ ?_
          intro r hr
          by_cases hbe : (r.value_type == vt) = true
          · exact absurd (by
              rw [mem_dedupFirst]
              exact List.mem_map.mpr ⟨r, hr, beq_iff_eq.mp hbe⟩) hvt
          · exact Bool.eq_false_iff.mpr hbe
        rw [hsub]
        rfl
  · rw [if_neg hguard]
    rw [List.filter_map]
    rw [show ((fun rq : BHRow × Option ℚ => rq.1.value_type == vt)
      ∘ (fun r : BHRow => (r, (none : Option ℚ)))) = (fun r : BHRow => r.value_type == vt)
      from rfl]
    rw [Bool.and_eq_true, Bool.not_eq_true', not_and_or] at hguard
    rcases hguard with hempty | hany
    · have hrows : rows = [] := by
        cases rows with
        | nil => rfl
        | cons r rs => exact absurd rfl hempty
      subst hrows
      rfl
    · have hnone : ∀ r ∈ rows, r.p_value = none := by
        intro r hr
        have h2 : r.p_value.isSome = false := by
          cases h3 : r.p_value.isSome with
          | false => rfl
          | true => exact absurd (List.any_eq_true.mpr ⟨r, hr, h3⟩) hany
        cases hp : r.p_value with
        | none => rfl
        | some q => rw [hp] at h2; simp at h2
      cases hsub : rows.filter (fun r => r.value_type == vt) with
      | nil => rfl
      | cons r0 rs =>
        have hr0 : r0 ∈ rows := List.mem_of_mem_filter
          (by rw [hsub]; exact List.mem_cons_self r0 rs)
        have hn0 : none ∈ (r0 :: rs).map BHRow.p_value :=
          List.mem_map.mpr ⟨r0, List.mem_cons_self _ _, hnone r0 hr0⟩
        rw [bhGroup_all_none_of_none _ hn0, List.length_map]
        rw [zip_replicate_local]

/-- Claim C1 (amended). The Benjamini-Hochberg correction in `run_nparc_external`
is applied independently within each `value_type` group: restricting the
corrected output to one group reproduces exactly that group zipped with its own
BH-adjusted values. However, contrary to the spec, NaN p-values are NOT
excluded: `m = len(pv)` counts them, NaN sorts last in the argsort, and the
reverse `np.minimum.accumulate` propagates the NaN so that EVERY adjusted
p-value in a group containing a single NaN becomes NaN. -/
theorem c1_bh_nan_amended :
    (∀ (rows : List BHRow) (vt : String),
      (correctSummaries rows).filter (fun rq => rq.1.value_type == vt)
        = (rows.filter (fun r => r.value_type == vt)).zip
            (bhGroup ((rows.filter (fun r => r.value_type == vt)).map BHRow.p_value)))
    ∧ (∀ pv : List (Option ℚ), none ∈ pv →
        bhGroup pv = List.replicate pv.length none) :=
  ⟨correctSummaries_filter, bhGroup_all_none_of_none⟩

/-- Claim C1 counterexample. A group with one finite p-value (0.01) and one NaN
p-value: the spec says rows with undefined p-values are excluded and the finite
one gets an adjusted value, but in the code the NaN poisons the running minimum
and both rows come back with adjusted p-value NaN. -/
theorem c1_bh_counterexample :
    correctSummaries [⟨"Raw", some (1/100)⟩, ⟨"Raw", none⟩]
      = [(⟨"Raw", some (1/100)⟩, none), (⟨"Raw", none⟩, none)] := by
  with_unfolding_all decide

/-- Witness for C1: the NaN-propagation half of the amended theorem applied at
the concrete p-value list `[0.01, NaN]`. -/
theorem c1_bh_nan_witness :
    bhGroup [some ((1 : ℚ)/100), none] = [none, none] :=
  c1_bh_nan_amended.2 [some ((1 : ℚ)/100), none] (by decide)

end PyRTCETSA
